import Mathlib

/-!
Verification development for the index-backed multi-mod intersection query
engine (`db/IndexQuery.go`) and the user-facing predicate surface
(`cmd` package, `MultiModSearch`).

The Go code is shallowly embedded: mutable state (`indexQueryContext`) is
passed explicitly, the bolt cursor is a list of not-yet-visited entries in
descending key order, machine integers are `Nat`/`Int` with explicit
wrap-around where it matters, and Go panics are modelled as dedicated
outcome constructors.
-/

namespace PoE

/-- Item identifier (opaque fixed-width id; equality is all we need). -/
abbrev ID := Nat

/-- Compact interned string identifier. -/
abbrev StringHeapID := Nat

/-- Compact interned league identifier. -/
abbrev LeagueHeapID := Nat

/-- Modelled from the spec: the system-wide "average scale factor" applied
by the writer to mod values before storage (`ItemModAverageScaleFactor` is
referenced by `NewIndexQuery` but defined outside the given sources; the
spec gives `F = 10` as the reference value). -/
def ItemModAverageScaleFactor : Nat := 10

/-- How many items is included in a stride of the lookup
(`LookupItemsMultiModStrideLength` in `db/IndexQuery.go`). -/
def LookupItemsMultiModStrideLength : Nat := 32

/-- One entry yielded by a bolt cursor: either a nested sub-bucket, which
`Prev`/`Last` report as a `(nil, non-nil)` pair, or a data pair of key
bytes and a packed list of item IDs.  Modelled from the spec: the
`IndexEntry` payload is "enumerable as a sequence of ItemIDs", so the
value side is kept as the decoded ID list. -/
inductive BucketEntry where
  | nested
  | pair (k : List Nat) (v : List ID)
deriving DecidableEq, Repr

/-- A bolt cursor over one index bucket.  `rest` holds the entries the
cursor has not yet yielded, in descending key order; the first
`Last`/`Prev` call yields its head.  An exhausted cursor has `rest = []`
and keeps answering `(nil, nil)`. -/
structure Cursor where
  rest : List BucketEntry
deriving DecidableEq, Repr

/-- Modelled from the spec: the read snapshot exposes
`getItemModIndexBucketRO` (defined outside the given sources), which
opens the per-(rootType, flavor, mod, league) index bucket.  A missing
bucket is not an error: per the spec's edge policy it produces an
already-exhausted cursor, so it is modelled as `.ok []`; `.error`
models an I/O or schema failure (the BucketOpen error kind). -/
structure Snapshot where
  getItemModIndexBucketRO :
    StringHeapID → StringHeapID → StringHeapID → LeagueHeapID →
      Except String (List BucketEntry)

/-- `IndexQuery` from `db/IndexQuery.go` (the transaction-dependent `ctx`
pointer is passed explicitly instead of stored). -/
structure IndexQuery where
  rootType : StringHeapID
  rootFlavor : StringHeapID
  mods : List StringHeapID
  minModValues : List Nat
  league : LeagueHeapID
  maxDesired : Int

/-- `indexQueryContext` from `db/IndexQuery.go`: cursor slots (a `none`
slot is an invalidated cursor), the valid-cursor counter, the
accumulator map (absent keys read as 0, mirroring Go map semantics) and
the result list. -/
structure indexQueryContext where
  validCursors : Int
  cursors : List (Option Cursor)
  set : ID → Nat
  result : List ID

/-- `removeCursor`: clear slot `index` and decrement `validCursors`. -/
def indexQueryContext.removeCursor (ctx : indexQueryContext) (index : Nat) :
    indexQueryContext :=
  { ctx with cursors := ctx.cursors.set index none,
             validCursors := ctx.validCursors - 1 }

/-- Store an advanced cursor back into its slot (in Go the bolt cursor is
mutated in place through the pointer held by the slot). -/
def indexQueryContext.setCursor (ctx : indexQueryContext) (index : Nat)
    (c : Cursor) : indexQueryContext :=
  { ctx with cursors := ctx.cursors.set index (some c) }

/-- `NewIndexQuery`: scale each minimum mod value by
`ItemModAverageScaleFactor` in unsigned 16-bit arithmetic. -/
def NewIndexQuery (rootType rootFlavor : StringHeapID)
    (mods : List StringHeapID) (minModValues : List Nat)
    (league : LeagueHeapID) (maxDesired : Int) : IndexQuery :=
  { rootType := rootType, rootFlavor := rootFlavor, mods := mods,
    minModValues :=
      minModValues.map (fun v => v * ItemModAverageScaleFactor % 65536),
    league := league, maxDesired := maxDesired }

/-- Group key bytes into big-endian 16-bit values. -/
def decodeU16Pairs : List Nat → List Nat
  | b0 :: b1 :: rest => (b0 % 256 * 256 + b1 % 256) :: decodeU16Pairs rest
  | _ => []

/-- Modelled from the spec: `decodeModIndexKey` (defined outside the given
sources) decodes an index key to its packed sequence of 16-bit values and
fails on a malformed key; an empty key decodes to no values, which
`checkPair` then rejects. -/
def decodeModIndexKey (k : List Nat) : Except String (List Nat) :=
  if k.length % 2 = 0 then .ok (decodeU16Pairs k)
  else .error "malformed mod index key"

/-- `registerID`: bump the accumulator count for `id`; once the count
reaches `len(q.mods)` the id is appended to the result and dropped from
the map. -/
def registerID (q : IndexQuery) (ctx : indexQueryContext) (id : ID) :
    indexQueryContext :=
  let shared := ctx.set id + 1
  if q.mods.length ≤ shared then
    { ctx with set := fun x => if x = id then 0 else ctx.set x,
               result := ctx.result ++ [id] }
  else
    { ctx with set := fun x => if x = id then shared else ctx.set x }

/-- `checkPair`: decode the key, compare the primary value against the
scaled minimum for `modIndex`, and either register every packed ID or
invalidate the cursor slot.  The returned count is the `idCount` local of
the Go code, which is declared but never incremented. -/
def checkPair (q : IndexQuery) (ctx : indexQueryContext) (k : List Nat)
    (v : List ID) (modIndex : Nat) :
    Except String (Nat × indexQueryContext) :=
  match decodeModIndexKey k with
  | .error e => .error ("failed to decode mod index key: " ++ e)
  | .ok values =>
    if values.length = 0 then
      .error "decoded item mod index key to no values"
    else
      let valid := q.minModValues.getD modIndex 0 ≤ values.headD 0
      let idCount : Nat := 0
      if valid then
        .ok (idCount, v.foldl (registerID q) ctx)
      else
        .ok (idCount, ctx.removeCursor modIndex)

/-- The per-cursor inner loop of `stride`: repeatedly `Prev`, skipping
nested buckets, invalidating the slot at start-of-bucket, and running
`checkPair` on data pairs; the loop index advances by the count returned
by `checkPair`. -/
def strideCursor (q : IndexQuery) (i : Nat) :
    indexQueryContext → Nat → List BucketEntry →
      indexQueryContext × Option String
  | ctx, index, rest =>
    if index < LookupItemsMultiModStrideLength then
      match rest with
      | [] => (ctx.removeCursor i, none)
      | .nested :: t => strideCursor q i ctx index t
      | .pair k v :: t =>
        let ctx1 := ctx.setCursor i ⟨t⟩
        match checkPair q ctx1 k v i with
        | .error e => (ctx1, some ("failed to check value pair: " ++ e))
        | .ok (countFound, ctx2) =>
          if countFound < 1 then (ctx2, none)
          else strideCursor q i ctx2 (index + countFound) t
    else (ctx.setCursor i ⟨rest⟩, none)

/-- The slot iteration of `stride`: process slots `i, i+1, ...` for
`rem` steps, skipping invalidated slots. -/
def strideFrom (q : IndexQuery) :
    Nat → Nat → indexQueryContext → indexQueryContext × Option String
  | 0, _, ctx => (ctx, none)
  | rem + 1, i, ctx =>
    match ctx.cursors.getD i none with
    | none => strideFrom q rem (i + 1) ctx
    | some c =>
      match strideCursor q i ctx 0 c.rest with
      | (ctx1, some e) => (ctx1, some e)
      | (ctx1, none) => strideFrom q rem (i + 1) ctx1

/-- `stride`: one pass over every cursor slot. -/
def stride (q : IndexQuery) (ctx : indexQueryContext) :
    indexQueryContext × Option String :=
  strideFrom q ctx.cursors.length 0 ctx

/-- The cursor-priming loop of `Run`: position every cursor at its tail
with `Last` and route data pairs through `checkPair`. -/
def primeFrom (q : IndexQuery) :
    Nat → Nat → indexQueryContext → indexQueryContext × Option String
  | 0, _, ctx => (ctx, none)
  | rem + 1, i, ctx =>
    match ctx.cursors.getD i none with
    | none => primeFrom q rem (i + 1) ctx
    | some c =>
      match c.rest with
      | [] => primeFrom q rem (i + 1) ctx
      | .nested :: t => primeFrom q rem (i + 1) (ctx.setCursor i ⟨t⟩)
      | .pair k v :: t =>
        let ctx1 := ctx.setCursor i ⟨t⟩
        match checkPair q ctx1 k v i with
        | .error e => (ctx1, some ("failed to check value in bucekt: " ++ e))
        | .ok out => primeFrom q rem (i + 1) out.2

/-- Priming pass over all cursor slots. -/
def primeCursors (q : IndexQuery) (ctx : indexQueryContext) :
    indexQueryContext × Option String :=
  primeFrom q ctx.cursors.length 0 ctx

/-- Open one cursor per queried mod (the bucket-opening loop of
`initContext`). -/
def openCursors (q : IndexQuery) (snap : Snapshot) :
    List StringHeapID → Except String (List (Option Cursor))
  | [] => .ok []
  | mod :: rest =>
    match snap.getItemModIndexBucketRO q.rootType q.rootFlavor mod q.league with
    | .error e =>
      .error ("faield to get item mod index bucket, err=" ++ e)
    | .ok bucket =>
      match openCursors q snap rest with
      | .error e => .error e
      | .ok cs => .ok (some ⟨bucket.reverse⟩ :: cs)

/-- Outcome of `initContext` as seen by `Run`: a returned error, a Go
runtime panic, or a built context. -/
inductive InitResult where
  | error (e : String)
  | panicked
  | ok (ctx : indexQueryContext)

/-- `initContext`: open every bucket (a failed open returns an error),
count the cursors as valid, then build the accumulator map and the
result slice.  Go's `make([]ID, 0, q.maxDesired)` panics when
`maxDesired` is negative, so that path is a runtime panic, not an
error. -/
def initContext (q : IndexQuery) (snap : Snapshot) : InitResult :=
  match openCursors q snap q.mods with
  | .error e => .error e
  | .ok cursors =>
    if q.maxDesired < 0 then .panicked
    else .ok { validCursors := (cursors.length : Int), cursors := cursors,
               set := fun _ => 0, result := [] }

/-- Weight of an optional cursor slot under a cursor weight function. -/
def cursorWeight (f : Cursor → Nat) : Option Cursor → Nat
  | none => 0
  | some c => f c

/-- Sum of slot weights over a cursor array. -/
def wsum (f : Cursor → Nat) (l : List (Option Cursor)) : Nat :=
  (l.map (cursorWeight f)).sum

/-- Termination measure for the driver loop: valid-cursor count plus
total entries remaining on live cursors.  Each stride pass with a live
cursor strictly decreases it. -/
def ctxMeasure (ctx : indexQueryContext) : Nat :=
  ctx.validCursors.toNat + wsum (fun c => c.rest.length) ctx.cursors

/-- The driver loop of `Run` with explicit fuel: while fewer than
`maxDesired` ids are found and a valid cursor remains, stride.  `none`
means the fuel ran out; `Run` supplies fuel that provably suffices. -/
def driverLoop (q : IndexQuery) :
    Nat → Int → indexQueryContext →
      Option (indexQueryContext × Option String)
  | 0, _, _ => none
  | fuel + 1, foundIDs, ctx =>
    if foundIDs < q.maxDesired ∧ 0 < ctx.validCursors then
      match stride q ctx with
      | (ctx1, some e) => some (ctx1, some ("failed a stride: " ++ e))
      | (ctx1, none) =>
        driverLoop q fuel ((ctx1.result.length : Int)) ctx1
    else some (ctx, none)

/-- Outcome of `Run` as observed by the caller: a normal return of
`(result, err)`, a Go runtime panic, or divergence of the driver loop. -/
inductive RunOutcome where
  | panicked
  | returned (result : List ID) (err : Option String)
  | diverged
deriving DecidableEq, Repr

/-- `Run`: initialise the context, prime the cursors, drive strides, and
return `q.ctx.result` together with the closure's error.  When
`initContext` fails the Go code still evaluates `q.ctx.result` with
`q.ctx == nil`, which is a nil-pointer dereference: modelled as
`.panicked`.  A panic inside `initContext` (negative `maxDesired`)
likewise aborts `Run`. -/
def Run (q : IndexQuery) (snap : Snapshot) : RunOutcome :=
  match initContext q snap with
  | .error _ => .panicked
  | .panicked => .panicked
  | .ok ctx0 =>
    match primeCursors q ctx0 with
    | (ctx1, some e) => .returned ctx1.result (some e)
    | (ctx1, none) =>
      match driverLoop q (ctxMeasure ctx1 + 1) 0 ctx1 with
      | none => .diverged
      | some (ctx2, none) => .returned ctx2.result none
      | some (ctx2, some e) => .returned ctx2.result (some e)

/-! ### Analysis helpers over the engine state -/

/-- Number of item IDs packed in an entry. -/
def entryLen : BucketEntry → Nat
  | .nested => 0
  | .pair _ v => v.length

/-- Occurrences of `id` in an entry's payload. -/
def entryCount (id : ID) : BucketEntry → Nat
  | .nested => 0
  | .pair _ v => v.count id

/-- Occurrences of `id` across a list of entries. -/
def restCount (id : ID) (l : List BucketEntry) : Nat :=
  (l.map (entryCount id)).sum

/-- The context invariant of the spec: `validCursors` equals the count of
non-null cursor slots. -/
def Inv (ctx : indexQueryContext) : Prop :=
  ctx.validCursors = (wsum (fun _ => 1) ctx.cursors : Int)

/-- Every entry on every live cursor packs at most `E` item IDs. -/
def ctxEntryBound (E : Nat) (ctx : indexQueryContext) : Prop :=
  ∀ c, some c ∈ ctx.cursors → ∀ e ∈ c.rest, entryLen e ≤ E

/-- Accumulator part of the per-id potential: threshold times the number
of times `id` already sits in the result, plus its pending count. -/
def phiPart (n : Nat) (ctx : indexQueryContext) (id : ID) : Nat :=
  n * ctx.result.count id + ctx.set id

/-- Occurrences of `id` still reachable on live cursors. -/
def ctxCount (id : ID) (ctx : indexQueryContext) : Nat :=
  wsum (fun c => restCount id c.rest) ctx.cursors

/-- Per-id potential: never increases along a run, so it bounds how often
`id` can enter the result. -/
def phi (q : IndexQuery) (id : ID) (ctx : indexQueryContext) : Nat :=
  phiPart q.mods.length ctx id + ctxCount id ctx

/-! ### The user-facing predicate surface (`cmd` package) -/

/-- A mod instance on an item.  Modelled from the spec: `stash.Item` mods
carry a textual template and a list of numeric values whose first element
is the primary value. -/
structure ItemMod where
  Template : String
  Values : List Nat
deriving DecidableEq, Repr

/-- An item as seen by `Satisfies`.  Modelled from the spec: only
`GetMods` is used. -/
structure Item where
  mods : List ItemMod
deriving DecidableEq, Repr

/-- `GetMods` accessor. -/
def Item.GetMods (item : Item) : List ItemMod := item.mods

/-- `MultiModSearch` from the `cmd` package. -/
structure MultiModSearch where
  MaxDesired : Int
  RootType : String
  RootFlavor : String
  League : String
  Mods : List String
  MinValues : List Nat
deriving DecidableEq, Repr

/-- Go map insertion (`required[mod] = v`): replace an existing binding
or append a new one. -/
def mapInsert (k : String) (v : Nat) :
    List (String × Nat) → List (String × Nat)
  | [] => [(k, v)]
  | p :: rest => if p.1 = k then (k, v) :: rest else p :: mapInsert k v rest

/-- Go map lookup (`min, ok := required[...]`). -/
def mapLookup (m : List (String × Nat)) (k : String) : Option Nat :=
  (m.find? (fun p => p.1 == k)).map (fun p => p.2)

/-- The `required` map of `Satisfies`: insert each `(mod, minValue)` pair
in order, later bindings overwriting earlier ones. -/
def buildRequired (pairs : List (String × Nat)) : List (String × Nat) :=
  pairs.foldl (fun acc p => mapInsert p.1 p.2 acc) []

/-- The inner loop of `Satisfies`: count the mod instances whose template
is in the required map and whose first value meets the minimum.  Reading
`mod.Values[0]` of an empty value list is a Go panic, modelled as
`none`. -/
def modsSatisfied (required : List (String × Nat)) :
    List ItemMod → Option Nat
  | [] => some 0
  | m :: rest =>
    match mapLookup required m.Template with
    | none => modsSatisfied required rest
    | some minv =>
      match m.Values with
      | [] => none
      | v0 :: _ =>
        match modsSatisfied required rest with
        | none => none
        | some c => some (if minv ≤ v0 then c + 1 else c)

/-- The outer loop of `Satisfies`: return `false` at the first item whose
satisfied-mod count falls short of `n`. -/
def satisfiesLoop (required : List (String × Nat)) (n : Nat) :
    List Item → Option Bool
  | [] => some true
  | item :: rest =>
    match modsSatisfied required item.GetMods with
    | none => none
    | some c => if c < n then some false else satisfiesLoop required n rest

/-- `Satisfies` from the `cmd` package: panics (mismatched lengths, or an
empty value list on a required mod) are modelled as `none`. -/
def MultiModSearch.Satisfies (search : MultiModSearch)
    (result : List Item) : Option Bool :=
  if search.Mods.length ≠ search.MinValues.length then none
  else
    satisfiesLoop (buildRequired (search.Mods.zip search.MinValues))
      search.Mods.length result

/-- Follows the spec's words, for comparison with `Satisfies`: every item
in the list has, for each mod named in the predicate, a mod instance
whose primary value meets the unscaled minimum. -/
def specSatisfies (search : MultiModSearch) (items : List Item) : Bool :=
  items.all fun item =>
    (search.Mods.zip search.MinValues).all fun p =>
      item.mods.any fun m =>
        m.Template == p.1 && decide (p.2 ≤ m.Values.headD 0)

/-- Whether a single mod instance counts toward `modsSatisfied` under the
required map: its template is required and its primary value meets the
minimum. -/
def satPred (required : List (String × Nat)) (m : ItemMod) : Bool :=
  match mapLookup required m.Template with
  | none => false
  | some minv => decide (minv ≤ m.Values.headD 0)

/-! ### Concrete inputs used by counterexamples and code evaluations -/

/-- Query for the C1 counterexample: one mod, scaled minimum 0,
`maxDesired = 1`. -/
def qC1cx : IndexQuery := NewIndexQuery 0 0 [1] [0] 0 1

/-- Snapshot for the C1 counterexample: the single bucket holds one
entry whose payload packs two distinct item IDs. -/
def snapC1cx : Snapshot := ⟨fun _ _ _ _ => .ok [.pair [0, 1] [3, 4]]⟩

/-- Query for the C2 counterexample: one mod, scaled minimum 0,
`maxDesired = 1`. -/
def qC2cx : IndexQuery := NewIndexQuery 0 0 [1] [0] 0 1

/-- Snapshot for the C2 counterexample: the single entry packs the same
item ID twice. -/
def snapC2cx : Snapshot := ⟨fun _ _ _ _ => .ok [.pair [0, 1] [7, 7]]⟩

/-- Query for the C3 evaluation: one mod with unscaled minimum 1
(scaled 10), `maxDesired = 10`. -/
def qC3cx : IndexQuery := NewIndexQuery 0 0 [5] [1] 0 10

/-- Context for the C3 evaluation, as it stands after priming: the live
cursor still holds two qualifying single-ID pairs (primary values 30 and
20, both at least the scaled minimum 10) and the result already holds the
primed ID 3. -/
def ctxC3cx : indexQueryContext :=
  ⟨1, [some ⟨[.pair [0, 30] [2], .pair [0, 20] [1]]⟩], fun _ => 0, [3]⟩

/-- Query for the C4 evaluation. -/
def qC4cx : IndexQuery := NewIndexQuery 0 0 [1] [5] 0 3

/-- Snapshot for the C4 evaluation: opening the required bucket fails
with an I/O error. -/
def snapC4cx : Snapshot := ⟨fun _ _ _ _ => .error "permission denied"⟩

/-- Query for the C2 witness: two mods, scaled minima 0, `maxDesired`
5. -/
def qC2w : IndexQuery := NewIndexQuery 0 0 [1, 2] [0, 0] 0 5

/-- Snapshot for the C2 witness: every bucket holds one entry packing the
single ID 7 once — the writer's mod-unique guarantee holds. -/
def snapC2w : Snapshot := ⟨fun _ _ _ _ => .ok [.pair [0, 1] [7]]⟩

/-- Query for the C5 witness. -/
def qC5w : IndexQuery := NewIndexQuery 0 0 [1, 2] [3, 4] 0 4

/-- Snapshot for the C5 witness: every queried mod lacks a bucket. -/
def snapC5w : Snapshot := ⟨fun _ _ _ _ => .ok []⟩

/-- Mixed query for the C5 witness: two mods, of which only the first
has an index bucket. -/
def qC5m : IndexQuery := NewIndexQuery 0 0 [1, 2] [0, 0] 0 4

/-- Snapshot for the mixed C5 witness: mod 1 opens to a one-entry
bucket, every other mod's bucket is missing. -/
def snapC5m : Snapshot :=
  ⟨fun _ _ mod _ => if mod = 1 then .ok [.pair [0, 9] [6]] else .ok []⟩

/-- Query for the C6 witness: two mods with unscaled minima 5 (scaled
50). -/
def qC6w : IndexQuery := NewIndexQuery 0 0 [1, 2] [5, 5] 0 3

/-- Context for the C6 witness: two live (exhausted) cursors, empty
accumulator and result. -/
def ctxC6w : indexQueryContext :=
  ⟨2, [some ⟨[]⟩, some ⟨[]⟩], fun _ => 0, []⟩

/-- Search for the C9 counterexample: two distinct mods, equal lengths. -/
def searchC9cx : MultiModSearch :=
  ⟨4, "Armour", "Boots", "Legacy", ["a", "b"], [1, 1]⟩

/-- Item for the C9 counterexample: two instances of mod "a" and no mod
"b" at all. -/
def itemC9cx : Item := ⟨[⟨"a", [5]⟩, ⟨"a", [5]⟩]⟩

/-- Search for the C9 witness. -/
def searchC9w : MultiModSearch := ⟨4, "", "", "", ["a", "b"], [1, 2]⟩

/-- Items for the C9 witness: one item satisfying both mods, carrying an
extra mod "c" outside the predicate. -/
def itemsC9w : List Item := [⟨[⟨"a", [5]⟩, ⟨"b", [3]⟩, ⟨"c", []⟩]⟩]

/-- Search for the C10 witness. -/
def searchC10w : MultiModSearch := ⟨2, "", "", "", ["x"], [3]⟩

/-! ### Basic list and slot-array lemmas -/

theorem wsum_cons (f : Cursor → Nat) (a : Option Cursor)
    (l : List (Option Cursor)) :
    wsum f (a :: l) = cursorWeight f a + wsum f l := by
  simp [wsum]

theorem getD_set_self {α : Type} {l : List α} {i : Nat} {x d : α}
    (h : i < l.length) : (l.set i x).getD i d = x := by
  induction l generalizing i with
  | nil => simp at h
  | cons a t ih =>
    cases i with
    | zero => rfl
    | succ n => simpa using ih (Nat.lt_of_succ_lt_succ (by simpa using h))

theorem getD_set_ne {α : Type} {l : List α} {i j : Nat} {x d : α}
    (h : i ≠ j) : (l.set j x).getD i d = l.getD i d := by
  induction l generalizing i j with
  | nil => rfl
  | cons a t ih =>
    cases j with
    | zero =>
      cases i with
      | zero => exact absurd rfl h
      | succ m => rfl
    | succ n =>
      cases i with
      | zero => rfl
      | succ m => simpa using ih (fun hh => h (by rw [hh]))

theorem getD_lt_length {α : Type} {l : List α} {i : Nat} {d : α}
    (h : l.getD i d ≠ d) : i < l.length := by
  by_contra hc
  exact h (List.getD_eq_default l d (Nat.le_of_not_lt hc))

theorem wsum_set {f : Cursor → Nat} {l : List (Option Cursor)} {i : Nat}
    {x : Option Cursor} (h : i < l.length) :
    wsum f (l.set i x) + cursorWeight f (l.getD i none) =
      wsum f l + cursorWeight f x := by
  induction l generalizing i with
  | nil => simp at h
  | cons a t ih =>
    cases i with
    | zero =>
      simp only [List.set, List.getD_cons_zero, wsum_cons]
      omega
    | succ n =>
      have hn := ih (i := n) (Nat.lt_of_succ_lt_succ (by simpa using h))
      simp only [List.set, List.getD_cons_succ, wsum_cons]
      omega

theorem wsum_ge_slot {f : Cursor → Nat} {l : List (Option Cursor)} {i : Nat} :
    cursorWeight f (l.getD i none) ≤ wsum f l := by
  induction l generalizing i with
  | nil => simp [wsum, cursorWeight]
  | cons a t ih =>
    cases i with
    | zero => simp [wsum_cons]
    | succ n =>
      have := ih (i := n)
      simp only [List.getD_cons_succ, wsum_cons]
      omega

theorem restCount_suffix {id : ID} {l₁ l₂ : List BucketEntry}
    (h : l₁ <:+ l₂) : restCount id l₁ ≤ restCount id l₂ := by
  obtain ⟨pre, rfl⟩ := h
  simp [restCount]

/-! ### Accumulator lemmas -/

theorem registerID_cursors (q : IndexQuery) (ctx : indexQueryContext)
    (id : ID) : (registerID q ctx id).cursors = ctx.cursors := by
  simp only [registerID]
  split <;> rfl

theorem registerID_validCursors (q : IndexQuery) (ctx : indexQueryContext)
    (id : ID) : (registerID q ctx id).validCursors = ctx.validCursors := by
  simp only [registerID]
  split <;> rfl

theorem registerID_result_len (q : IndexQuery) (ctx : indexQueryContext)
    (id : ID) :
    (registerID q ctx id).result.length ≤ ctx.result.length + 1 := by
  simp only [registerID]
  split <;> simp

theorem registerID_phiPart (q : IndexQuery) (ctx : indexQueryContext)
    (id' id : ID) :
    phiPart q.mods.length (registerID q ctx id') id ≤
      phiPart q.mods.length ctx id + (if id = id' then 1 else 0) := by
  by_cases hid : id = id'
  · subst hid
    simp only [registerID, phiPart]
    split
    · next hle =>
      simp [List.count_append, Nat.mul_succ]
      omega
    · simp
      omega
  · have hbeq : (id' == id) = false :=
      beq_eq_false_iff_ne.mpr (Ne.symm hid)
    simp only [registerID, phiPart]
    split
    · simp [List.count_append, hbeq, hid]
    · simp [hid]

theorem foldl_registerID_cursors (q : IndexQuery) (v : List ID) :
    ∀ ctx : indexQueryContext,
      (v.foldl (registerID q) ctx).cursors = ctx.cursors := by
  induction v with
  | nil => intro ctx; rfl
  | cons a t ih =>
    intro ctx
    simpa [registerID_cursors] using ih (registerID q ctx a)

theorem foldl_registerID_validCursors (q : IndexQuery) (v : List ID) :
    ∀ ctx : indexQueryContext,
      (v.foldl (registerID q) ctx).validCursors = ctx.validCursors := by
  induction v with
  | nil => intro ctx; rfl
  | cons a t ih =>
    intro ctx
    simpa [registerID_validCursors] using ih (registerID q ctx a)

theorem foldl_registerID_result_len (q : IndexQuery) (v : List ID) :
    ∀ ctx : indexQueryContext,
      (v.foldl (registerID q) ctx).result.length ≤
        ctx.result.length + v.length := by
  induction v with
  | nil => intro ctx; simp
  | cons a t ih =>
    intro ctx
    have h1 := registerID_result_len q ctx a
    have h2 := ih (registerID q ctx a)
    simp only [List.foldl_cons, List.length_cons]
    omega

theorem foldl_registerID_phiPart (q : IndexQuery) (v : List ID) :
    ∀ (ctx : indexQueryContext) (id : ID),
      phiPart q.mods.length (v.foldl (registerID q) ctx) id ≤
        phiPart q.mods.length ctx id + v.count id := by
  induction v with
  | nil => intro ctx id; simp
  | cons a t ih =>
    intro ctx id
    have h1 := registerID_phiPart q ctx a id
    have h2 := ih (registerID q ctx a) id
    simp only [List.foldl_cons, List.count_cons]
    by_cases hid : id = a
    · subst hid
      simp at h1
      simp only [beq_self_eq_true, if_true]
      omega
    · simp only [if_neg hid] at h1
      have hbeq : (a == id) = false :=
        beq_eq_false_iff_ne.mpr (Ne.symm hid)
      simp only [hbeq, if_false]
      omega

/-! ### checkPair lemmas -/

theorem checkPair_eq (q : IndexQuery) (ctx : indexQueryContext)
    (k : List Nat) (v : List ID) (i : Nat) :
    checkPair q ctx k v i =
      match decodeModIndexKey k with
      | .error e => .error ("failed to decode mod index key: " ++ e)
      | .ok values =>
        if values.length = 0 then
          .error "decoded item mod index key to no values"
        else if q.minModValues.getD i 0 ≤ values.headD 0 then
          .ok (0, v.foldl (registerID q) ctx)
        else .ok (0, ctx.removeCursor i) := rfl

theorem checkPair_ok {q : IndexQuery} {ctx : indexQueryContext}
    {k : List Nat} {v : List ID} {i : Nat}
    {out : Nat × indexQueryContext}
    (h : checkPair q ctx k v i = .ok out) :
    out.1 = 0 ∧
      (out.2 = v.foldl (registerID q) ctx ∨ out.2 = ctx.removeCursor i) := by
  rw [checkPair_eq] at h
  split at h
  · exact absurd h (by simp)
  · split at h
    · exact absurd h (by simp)
    · split at h
      · cases h; exact ⟨rfl, Or.inl rfl⟩
      · cases h; exact ⟨rfl, Or.inr rfl⟩

/-! ### Slot-operation lemmas -/

theorem getD_some_lt {l : List (Option Cursor)} {i : Nat} {c : Cursor}
    (hx : l.getD i none = some c) : i < l.length :=
  getD_lt_length (by rw [hx]; exact fun hh => Option.noConfusion hh)

theorem removeCursor_Inv {ctx : indexQueryContext} {i : Nat} {c : Cursor}
    (h : Inv ctx) (hx : ctx.cursors.getD i none = some c) :
    Inv (ctx.removeCursor i) := by
  have hlt : i < ctx.cursors.length := getD_some_lt hx
  have hw := wsum_set (f := fun _ => 1) (x := none) hlt
  rw [hx] at hw
  simp only [cursorWeight] at hw
  simp only [Inv, indexQueryContext.removeCursor] at h ⊢
  omega

theorem setCursor_Inv {ctx : indexQueryContext} {i : Nat} {c c' : Cursor}
    (h : Inv ctx) (hx : ctx.cursors.getD i none = some c) :
    Inv (ctx.setCursor i c') := by
  have hlt : i < ctx.cursors.length := getD_some_lt hx
  have hw := wsum_set (f := fun _ => 1) (x := some c') hlt
  rw [hx] at hw
  simp only [cursorWeight] at hw
  simp only [Inv, indexQueryContext.setCursor] at h ⊢
  omega

theorem removeCursor_measure {ctx : indexQueryContext} {i : Nat}
    {c : Cursor} (h : Inv ctx) (hx : ctx.cursors.getD i none = some c) :
    ctxMeasure (ctx.removeCursor i) + 1 + c.rest.length = ctxMeasure ctx := by
  have hlt : i < ctx.cursors.length := getD_some_lt hx
  have hw := wsum_set (f := fun c => c.rest.length) (x := none) hlt
  rw [hx] at hw
  have hone : (1 : Nat) ≤ wsum (fun _ => 1) ctx.cursors := by
    have := wsum_ge_slot (f := fun _ => 1) (l := ctx.cursors) (i := i)
    rw [hx] at this
    exact this
  simp only [cursorWeight] at hw
  simp only [Inv] at h
  simp only [ctxMeasure, indexQueryContext.removeCursor]
  omega

theorem setCursor_measure {ctx : indexQueryContext} {i : Nat}
    {c c' : Cursor} (hx : ctx.cursors.getD i none = some c) :
    ctxMeasure (ctx.setCursor i c') + c.rest.length =
      ctxMeasure ctx + c'.rest.length := by
  have hlt : i < ctx.cursors.length := getD_some_lt hx
  have hw := wsum_set (f := fun c => c.rest.length) (x := some c') hlt
  rw [hx] at hw
  simp only [cursorWeight] at hw
  simp only [ctxMeasure, indexQueryContext.setCursor]
  omega

theorem removeCursor_ctxCount {ctx : indexQueryContext} {i : Nat}
    {c : Cursor} (hx : ctx.cursors.getD i none = some c) (id : ID) :
    ctxCount id (ctx.removeCursor i) + restCount id c.rest =
      ctxCount id ctx := by
  have hlt : i < ctx.cursors.length := getD_some_lt hx
  have hw := wsum_set (f := fun c => restCount id c.rest) (x := none) hlt
  rw [hx] at hw
  simp only [cursorWeight] at hw
  simp only [ctxCount, indexQueryContext.removeCursor]
  omega

theorem setCursor_ctxCount {ctx : indexQueryContext} {i : Nat}
    {c c' : Cursor} (hx : ctx.cursors.getD i none = some c) (id : ID) :
    ctxCount id (ctx.setCursor i c') + restCount id c.rest =
      ctxCount id ctx + restCount id c'.rest := by
  have hlt : i < ctx.cursors.length := getD_some_lt hx
  have hw := wsum_set (f := fun c => restCount id c.rest) (x := some c') hlt
  rw [hx] at hw
  simp only [cursorWeight] at hw
  simp only [ctxCount, indexQueryContext.setCursor]
  omega

/-! ### strideCursor unfolding equations -/

theorem strideCursor_nil (q : IndexQuery) (i : Nat)
    (ctx : indexQueryContext) (index : Nat)
    (h : index < LookupItemsMultiModStrideLength) :
    strideCursor q i ctx index [] = (ctx.removeCursor i, none) := by
  unfold strideCursor
  rw [if_pos h]

theorem strideCursor_nested (q : IndexQuery) (i : Nat)
    (ctx : indexQueryContext) (index : Nat) (t : List BucketEntry)
    (h : index < LookupItemsMultiModStrideLength) :
    strideCursor q i ctx index (.nested :: t) =
      strideCursor q i ctx index t := by
  conv_lhs => rw [strideCursor]
  rw [if_pos h]

theorem strideCursor_pair (q : IndexQuery) (i : Nat)
    (ctx : indexQueryContext) (index : Nat) (k : List Nat) (v : List ID)
    (t : List BucketEntry) (h : index < LookupItemsMultiModStrideLength) :
    strideCursor q i ctx index (.pair k v :: t) =
      (match checkPair q (ctx.setCursor i ⟨t⟩) k v i with
       | .error e =>
         (ctx.setCursor i ⟨t⟩, some ("failed to check value pair: " ++ e))
       | .ok (countFound, ctx2) =>
         if countFound < 1 then (ctx2, none)
         else strideCursor q i ctx2 (index + countFound) t) := by
  conv_lhs => rw [strideCursor]
  rw [if_pos h]

theorem strideCursor_stop (q : IndexQuery) (i : Nat)
    (ctx : indexQueryContext) (index : Nat) (rest : List BucketEntry)
    (h : ¬ index < LookupItemsMultiModStrideLength) :
    strideCursor q i ctx index rest = (ctx.setCursor i ⟨rest⟩, none) := by
  unfold strideCursor
  rw [if_neg h]

theorem foldl_registerID_Inv (q : IndexQuery) (v : List ID)
    (ctx : indexQueryContext) (h : Inv ctx) :
    Inv (v.foldl (registerID q) ctx) := by
  simp only [Inv, foldl_registerID_cursors, foldl_registerID_validCursors]
  exact h

theorem foldl_registerID_measure (q : IndexQuery) (v : List ID)
    (ctx : indexQueryContext) :
    ctxMeasure (v.foldl (registerID q) ctx) = ctxMeasure ctx := by
  simp only [ctxMeasure, foldl_registerID_cursors,
    foldl_registerID_validCursors]

theorem foldl_registerID_ctxCount (q : IndexQuery) (v : List ID)
    (ctx : indexQueryContext) (id : ID) :
    ctxCount id (v.foldl (registerID q) ctx) = ctxCount id ctx := by
  simp only [ctxCount, foldl_registerID_cursors]

/-! ### strideCursor structural lemmas -/

theorem strideCursor_other (q : IndexQuery) (i : Nat)
    (rest : List BucketEntry) :
    ∀ (ctx : indexQueryContext) (index j : Nat), j ≠ i →
      (strideCursor q i ctx index rest).1.cursors.getD j none =
        ctx.cursors.getD j none := by
  induction rest with
  | nil =>
    intro ctx index j hj
    by_cases hidx : index < LookupItemsMultiModStrideLength
    · rw [strideCursor_nil q i ctx index hidx]
      exact getD_set_ne hj
    · rw [strideCursor_stop q i ctx index _ hidx]
      exact getD_set_ne hj
  | cons e t ih =>
    intro ctx index j hj
    by_cases hidx : index < LookupItemsMultiModStrideLength
    · cases e with
      | nested =>
        rw [strideCursor_nested q i ctx index t hidx]
        exact ih ctx index j hj
      | pair k v =>
        rw [strideCursor_pair q i ctx index k v t hidx]
        cases hcp : checkPair q (ctx.setCursor i ⟨t⟩) k v i with
        | error err =>
          simp only [hcp]
          exact getD_set_ne hj
        | ok out =>
          obtain ⟨h0, hor⟩ := checkPair_ok hcp
          cases out with
          | mk cnt ctx2 =>
            simp only at h0
            subst h0
            simp only [hcp]
            rw [if_pos (by norm_num)]
            simp only
            cases hor with
            | inl hfold =>
              simp only at hfold
              rw [hfold, foldl_registerID_cursors]
              exact getD_set_ne hj
            | inr hrem =>
              simp only at hrem
              rw [hrem]
              show ((ctx.cursors.set i (some ⟨t⟩)).set i none).getD j none = _
              rw [getD_set_ne hj, getD_set_ne hj]
    · rw [strideCursor_stop q i ctx index _ hidx]
      exact getD_set_ne hj

theorem strideCursor_len (q : IndexQuery) (i : Nat)
    (rest : List BucketEntry) :
    ∀ (ctx : indexQueryContext) (index : Nat),
      (strideCursor q i ctx index rest).1.cursors.length =
        ctx.cursors.length := by
  induction rest with
  | nil =>
    intro ctx index
    by_cases hidx : index < LookupItemsMultiModStrideLength
    · rw [strideCursor_nil q i ctx index hidx]
      exact List.length_set ..
    · rw [strideCursor_stop q i ctx index _ hidx]
      exact List.length_set ..
  | cons e t ih =>
    intro ctx index
    by_cases hidx : index < LookupItemsMultiModStrideLength
    · cases e with
      | nested =>
        rw [strideCursor_nested q i ctx index t hidx]
        exact ih ctx index
      | pair k v =>
        rw [strideCursor_pair q i ctx index k v t hidx]
        cases hcp : checkPair q (ctx.setCursor i ⟨t⟩) k v i with
        | error err =>
          simp only [hcp]
          exact List.length_set ..
        | ok out =>
          obtain ⟨h0, hor⟩ := checkPair_ok hcp
          cases out with
          | mk cnt ctx2 =>
            simp only at h0
            subst h0
            simp only [hcp]
            rw [if_pos (by norm_num)]
            simp only
            cases hor with
            | inl hfold =>
              simp only at hfold
              rw [hfold, foldl_registerID_cursors]
              exact List.length_set ..
            | inr hrem =>
              simp only at hrem
              rw [hrem]
              show ((ctx.cursors.set i (some ⟨t⟩)).set i none).length = _
              rw [List.length_set, List.length_set]
    · rw [strideCursor_stop q i ctx index _ hidx]
      exact List.length_set ..

theorem phiPart_removeCursor (n : Nat) (ctx : indexQueryContext) (i : Nat)
    (id : ID) : phiPart n (ctx.removeCursor i) id = phiPart n ctx id := rfl

theorem phiPart_setCursor (n : Nat) (ctx : indexQueryContext) (i : Nat)
    (c' : Cursor) (id : ID) :
    phiPart n (ctx.setCursor i c') id = phiPart n ctx id := rfl

theorem restCount_cons (id : ID) (e : BucketEntry) (t : List BucketEntry) :
    restCount id (e :: t) = entryCount id e + restCount id t := by
  simp [restCount]

theorem ctxEntryBound_removeCursor {E : Nat} {ctx : indexQueryContext}
    {i : Nat} (h : ctxEntryBound E ctx) :
    ctxEntryBound E (ctx.removeCursor i) := by
  intro c hc e he
  rcases List.mem_or_eq_of_mem_set hc with hmem | habs
  · exact h c hmem e he
  · exact absurd habs (by simp)

theorem ctxEntryBound_setCursor {E : Nat} {ctx : indexQueryContext}
    {i : Nat} {c' : Cursor} (h : ctxEntryBound E ctx)
    (hc' : ∀ e ∈ c'.rest, entryLen e ≤ E) :
    ctxEntryBound E (ctx.setCursor i c') := by
  intro c hc e he
  rcases List.mem_or_eq_of_mem_set hc with hmem | heq
  · exact h c hmem e he
  · cases heq
    exact hc' e he

theorem ctxEntryBound_foldl {E : Nat} {q : IndexQuery} {v : List ID}
    {ctx : indexQueryContext} (h : ctxEntryBound E ctx) :
    ctxEntryBound E (v.foldl (registerID q) ctx) := by
  intro c hc e he
  rw [foldl_registerID_cursors] at hc
  exact h c hc e he

/-! ### strideCursor: invariant, measure, growth bound and potential -/

theorem strideCursor_main (q : IndexQuery) (i : Nat)
    (rest : List BucketEntry) :
    ∀ (ctx : indexQueryContext) (index : Nat) (c : Cursor),
      Inv ctx → ctx.cursors.getD i none = some c → rest <:+ c.rest →
      index < LookupItemsMultiModStrideLength →
      Inv (strideCursor q i ctx index rest).1 ∧
        ctxMeasure (strideCursor q i ctx index rest).1 < ctxMeasure ctx := by
  induction rest with
  | nil =>
    intro ctx index c hInv hx hsuf hidx
    rw [strideCursor_nil q i ctx index hidx]
    refine ⟨removeCursor_Inv hInv hx, ?_⟩
    show ctxMeasure (ctx.removeCursor i) < ctxMeasure ctx
    have := removeCursor_measure hInv hx
    omega
  | cons e t ih =>
    intro ctx index c hInv hx hsuf hidx
    cases e with
    | nested =>
      rw [strideCursor_nested q i ctx index t hidx]
      exact ih ctx index c hInv hx ((List.suffix_cons _ t).trans hsuf) hidx
    | pair k v =>
      rw [strideCursor_pair q i ctx index k v t hidx]
      have hlt : i < ctx.cursors.length := getD_some_lt hx
      have hInv1 : Inv (ctx.setCursor i ⟨t⟩) := setCursor_Inv hInv hx
      have hx1 : (ctx.setCursor i ⟨t⟩).cursors.getD i none = some ⟨t⟩ :=
        getD_set_self hlt
      have hm1 : ctxMeasure (ctx.setCursor i ⟨t⟩) + c.rest.length =
          ctxMeasure ctx + t.length := setCursor_measure hx
      have hlen : t.length + 1 ≤ c.rest.length := by
        have := hsuf.length_le
        simpa using this
      have hm1' : ctxMeasure (ctx.setCursor i ⟨t⟩) < ctxMeasure ctx := by
        omega
      cases hcp : checkPair q (ctx.setCursor i ⟨t⟩) k v i with
      | error err =>
        simp only [hcp]
        exact ⟨hInv1, hm1'⟩
      | ok out =>
        obtain ⟨h0, hor⟩ := checkPair_ok hcp
        cases out with
        | mk cnt ctx2 =>
          simp only at h0
          subst h0
          simp only [hcp]
          rw [if_pos (by norm_num)]
          simp only
          cases hor with
          | inl hfold =>
            simp only at hfold
            rw [hfold]
            refine ⟨foldl_registerID_Inv _ _ _ hInv1, ?_⟩
            rw [foldl_registerID_measure]
            exact hm1'
          | inr hrem =>
            simp only at hrem
            rw [hrem]
            refine ⟨removeCursor_Inv hInv1 hx1, ?_⟩
            have hm2 : ctxMeasure ((ctx.setCursor i ⟨t⟩).removeCursor i) +
                1 + t.length = ctxMeasure (ctx.setCursor i ⟨t⟩) :=
              removeCursor_measure hInv1 hx1
            omega

theorem strideCursor_bound (q : IndexQuery) (i : Nat) (E : Nat)
    (rest : List BucketEntry) :
    ∀ (ctx : indexQueryContext) (index : Nat),
      ctxEntryBound E ctx → (∀ e ∈ rest, entryLen e ≤ E) →
      (strideCursor q i ctx index rest).1.result.length ≤
          ctx.result.length + E ∧
        ctxEntryBound E (strideCursor q i ctx index rest).1 := by
  induction rest with
  | nil =>
    intro ctx index hB hr
    by_cases hidx : index < LookupItemsMultiModStrideLength
    · rw [strideCursor_nil q i ctx index hidx]
      exact ⟨Nat.le_add_right .., ctxEntryBound_removeCursor hB⟩
    · rw [strideCursor_stop q i ctx index _ hidx]
      exact ⟨Nat.le_add_right .., ctxEntryBound_setCursor hB hr⟩
  | cons e t ih =>
    intro ctx index hB hr
    have hrt : ∀ x ∈ t, entryLen x ≤ E :=
      fun x hxm => hr x (List.mem_cons_of_mem _ hxm)
    by_cases hidx : index < LookupItemsMultiModStrideLength
    · cases e with
      | nested =>
        rw [strideCursor_nested q i ctx index t hidx]
        exact ih ctx index hB hrt
      | pair k v =>
        rw [strideCursor_pair q i ctx index k v t hidx]
        have hB1 : ctxEntryBound E (ctx.setCursor i ⟨t⟩) :=
          ctxEntryBound_setCursor hB hrt
        have hvE : v.length ≤ E := hr _ (List.mem_cons_self ..)
        cases hcp : checkPair q (ctx.setCursor i ⟨t⟩) k v i with
        | error err =>
          simp only [hcp]
          exact ⟨Nat.le_add_right .., hB1⟩
        | ok out =>
          obtain ⟨h0, hor⟩ := checkPair_ok hcp
          cases out with
          | mk cnt ctx2 =>
            simp only at h0
            subst h0
            simp only [hcp]
            rw [if_pos (by norm_num)]
            simp only
            cases hor with
            | inl hfold =>
              simp only at hfold
              rw [hfold]
              constructor
              · have h1 := foldl_registerID_result_len q v (ctx.setCursor i ⟨t⟩)
                have h2 : (ctx.setCursor i ⟨t⟩).result = ctx.result := rfl
                rw [h2] at h1
                omega
              · exact ctxEntryBound_foldl hB1
            | inr hrem =>
              simp only at hrem
              rw [hrem]
              exact ⟨Nat.le_add_right .., ctxEntryBound_removeCursor hB1⟩
    · rw [strideCursor_stop q i ctx index _ hidx]
      exact ⟨Nat.le_add_right .., ctxEntryBound_setCursor hB hr⟩

theorem strideCursor_phi (q : IndexQuery) (i : Nat) (id : ID)
    (rest : List BucketEntry) :
    ∀ (ctx : indexQueryContext) (index : Nat) (c : Cursor),
      ctx.cursors.getD i none = some c → rest <:+ c.rest →
      phi q id (strideCursor q i ctx index rest).1 ≤ phi q id ctx := by
  induction rest with
  | nil =>
    intro ctx index c hx hsuf
    by_cases hidx : index < LookupItemsMultiModStrideLength
    · rw [strideCursor_nil q i ctx index hidx]
      have hc := removeCursor_ctxCount hx id
      simp only [phi, phiPart_removeCursor]
      omega
    · rw [strideCursor_stop q i ctx index _ hidx]
      have hc : ctxCount id (ctx.setCursor i ⟨[]⟩) + restCount id c.rest =
          ctxCount id ctx + restCount id [] := setCursor_ctxCount hx id
      simp only [phi, phiPart_setCursor]
      simp only [restCount, List.map_nil, List.sum_nil] at hc
      omega
  | cons e t ih =>
    intro ctx index c hx hsuf
    by_cases hidx : index < LookupItemsMultiModStrideLength
    · cases e with
      | nested =>
        rw [strideCursor_nested q i ctx index t hidx]
        exact ih ctx index c hx ((List.suffix_cons _ t).trans hsuf)
      | pair k v =>
        rw [strideCursor_pair q i ctx index k v t hidx]
        have hlt : i < ctx.cursors.length := getD_some_lt hx
        have hx1 : (ctx.setCursor i ⟨t⟩).cursors.getD i none = some ⟨t⟩ :=
          getD_set_self hlt
        have hcc1 : ctxCount id (ctx.setCursor i ⟨t⟩) + restCount id c.rest =
            ctxCount id ctx + restCount id t := setCursor_ctxCount hx id
        have hrs : restCount id (.pair k v :: t) ≤ restCount id c.rest :=
          restCount_suffix hsuf
        rw [restCount_cons] at hrs
        have hstep : ctxCount id (ctx.setCursor i ⟨t⟩) +
            entryCount id (.pair k v) ≤ ctxCount id ctx := by omega
        cases hcp : checkPair q (ctx.setCursor i ⟨t⟩) k v i with
        | error err =>
          simp only [hcp]
          simp only [phi, phiPart_setCursor]
          omega
        | ok out =>
          obtain ⟨h0, hor⟩ := checkPair_ok hcp
          cases out with
          | mk cnt ctx2 =>
            simp only at h0
            subst h0
            simp only [hcp]
            rw [if_pos (by norm_num)]
            simp only
            cases hor with
            | inl hfold =>
              simp only at hfold
              rw [hfold]
              have hp := foldl_registerID_phiPart q v (ctx.setCursor i ⟨t⟩) id
              have hcc2 := foldl_registerID_ctxCount q v (ctx.setCursor i ⟨t⟩) id
              have hvc : v.count id = entryCount id (.pair k v) := rfl
              simp only [phi, phiPart_setCursor] at hp ⊢
              rw [hcc2]
              omega
            | inr hrem =>
              simp only at hrem
              rw [hrem]
              have hcr := removeCursor_ctxCount hx1 id
              simp only [phi, phiPart_removeCursor, phiPart_setCursor]
              omega
    · rw [strideCursor_stop q i ctx index _ hidx]
      have hc : ctxCount id (ctx.setCursor i ⟨e :: t⟩) + restCount id c.rest =
          ctxCount id ctx + restCount id (e :: t) := setCursor_ctxCount hx id
      have hrs : restCount id (e :: t) ≤ restCount id c.rest :=
        restCount_suffix hsuf
      simp only [phi, phiPart_setCursor]
      omega

/-! ### strideFrom unfolding equations and lemmas -/

theorem getD_mem {l : List (Option Cursor)} {i : Nat} {c : Cursor}
    (h : l.getD i none = some c) : some c ∈ l := by
  induction l generalizing i with
  | nil => exact absurd h (by simp [List.getD])
  | cons a t ih =>
    cases i with
    | zero =>
      rw [List.getD_cons_zero] at h
      rw [← h]
      exact List.mem_cons_self ..
    | succ n => exact List.mem_cons_of_mem _ (ih (by simpa using h))

theorem strideFrom_zero (q : IndexQuery) (i : Nat)
    (ctx : indexQueryContext) : strideFrom q 0 i ctx = (ctx, none) := rfl

theorem strideFrom_succ_none (q : IndexQuery) (rem i : Nat)
    (ctx : indexQueryContext) (h : ctx.cursors.getD i none = none) :
    strideFrom q (rem + 1) i ctx = strideFrom q rem (i + 1) ctx := by
  conv_lhs => rw [strideFrom]
  rw [h]

theorem strideFrom_succ_some (q : IndexQuery) (rem i : Nat)
    (ctx : indexQueryContext) (c : Cursor)
    (h : ctx.cursors.getD i none = some c) :
    strideFrom q (rem + 1) i ctx =
      match strideCursor q i ctx 0 c.rest with
      | (ctx1, some e) => (ctx1, some e)
      | (ctx1, none) => strideFrom q rem (i + 1) ctx1 := by
  conv_lhs => rw [strideFrom]
  rw [h]

theorem strideFrom_none_pres (q : IndexQuery) (rem : Nat) :
    ∀ (i : Nat) (ctx : indexQueryContext) (j : Nat),
      ctx.cursors.getD j none = none →
      (strideFrom q rem i ctx).1.cursors.getD j none = none := by
  induction rem with
  | zero => intro i ctx j hj; exact hj
  | succ rem ih =>
    intro i ctx j hj
    cases hx : ctx.cursors.getD i none with
    | none =>
      rw [strideFrom_succ_none q rem i ctx hx]
      exact ih (i + 1) ctx j hj
    | some c =>
      rw [strideFrom_succ_some q rem i ctx c hx]
      have hji : j ≠ i := fun hh => by rw [hh, hx] at hj; cases hj
      have hother := strideCursor_other q i c.rest ctx 0 j hji
      cases hsc : strideCursor q i ctx 0 c.rest with
      | mk ctx1 err =>
        rw [hsc] at hother
        cases err with
        | none =>
          simp only
          exact ih (i + 1) ctx1 j (by rw [hother]; exact hj)
        | some e =>
          simp only
          rw [hother]
          exact hj

theorem strideFrom_len (q : IndexQuery) (rem : Nat) :
    ∀ (i : Nat) (ctx : indexQueryContext),
      (strideFrom q rem i ctx).1.cursors.length = ctx.cursors.length := by
  induction rem with
  | zero => intro i ctx; rfl
  | succ rem ih =>
    intro i ctx
    cases hx : ctx.cursors.getD i none with
    | none =>
      rw [strideFrom_succ_none q rem i ctx hx]
      exact ih (i + 1) ctx
    | some c =>
      rw [strideFrom_succ_some q rem i ctx c hx]
      have hlen := strideCursor_len q i c.rest ctx 0
      cases hsc : strideCursor q i ctx 0 c.rest with
      | mk ctx1 err =>
        rw [hsc] at hlen
        cases err with
        | none =>
          simp only
          rw [ih (i + 1) ctx1]
          exact hlen
        | some e => exact hlen

theorem strideFrom_main (q : IndexQuery) (rem : Nat) :
    ∀ (i : Nat) (ctx : indexQueryContext), Inv ctx →
      Inv (strideFrom q rem i ctx).1 ∧
      ctxMeasure (strideFrom q rem i ctx).1 ≤ ctxMeasure ctx ∧
      ((∃ j, i ≤ j ∧ j < i + rem ∧ ctx.cursors.getD j none ≠ none) →
        ctxMeasure (strideFrom q rem i ctx).1 < ctxMeasure ctx) := by
  induction rem with
  | zero =>
    intro i ctx hInv
    refine ⟨hInv, le_refl _, ?_⟩
    rintro ⟨j, hij, hlt, -⟩
    omega
  | succ rem ih =>
    intro i ctx hInv
    cases hx : ctx.cursors.getD i none with
    | none =>
      rw [strideFrom_succ_none q rem i ctx hx]
      obtain ⟨h1, h2, h3⟩ := ih (i + 1) ctx hInv
      refine ⟨h1, h2, ?_⟩
      rintro ⟨j, hij, hlt, hne⟩
      have hji : j ≠ i := fun hh => hne (by rw [hh]; exact hx)
      exact h3 ⟨j, by omega, by omega, hne⟩
    | some c =>
      rw [strideFrom_succ_some q rem i ctx c hx]
      obtain ⟨hInv1, hm1⟩ :=
        strideCursor_main q i c.rest ctx 0 c hInv hx List.suffix_rfl
          (by norm_num [LookupItemsMultiModStrideLength])
      cases hsc : strideCursor q i ctx 0 c.rest with
      | mk ctx1 err =>
        rw [hsc] at hInv1 hm1
        cases err with
        | none =>
          have hInv1' : Inv ctx1 := hInv1
          have hm1' : ctxMeasure ctx1 < ctxMeasure ctx := hm1
          simp only
          obtain ⟨h1, h2, h3⟩ := ih (i + 1) ctx1 hInv1'
          exact ⟨h1, by omega, fun _ => by omega⟩
        | some e => exact ⟨hInv1, Nat.le_of_lt hm1, fun _ => hm1⟩

theorem strideFrom_bound (q : IndexQuery) (E : Nat) (rem : Nat) :
    ∀ (i : Nat) (ctx : indexQueryContext), ctxEntryBound E ctx →
      (strideFrom q rem i ctx).1.result.length ≤
          ctx.result.length + rem * E ∧
        ctxEntryBound E (strideFrom q rem i ctx).1 := by
  induction rem with
  | zero => intro i ctx hB; exact ⟨by simp [strideFrom_zero], hB⟩
  | succ rem ih =>
    intro i ctx hB
    cases hx : ctx.cursors.getD i none with
    | none =>
      rw [strideFrom_succ_none q rem i ctx hx]
      obtain ⟨h1, h2⟩ := ih (i + 1) ctx hB
      refine ⟨?_, h2⟩
      have : rem * E ≤ (rem + 1) * E := by
        have : rem ≤ rem + 1 := Nat.le_succ rem
        exact Nat.mul_le_mul_right E this
      omega
    | some c =>
      rw [strideFrom_succ_some q rem i ctx c hx]
      have hcr : ∀ e ∈ c.rest, entryLen e ≤ E := hB c (getD_mem hx)
      obtain ⟨hb1, hB1⟩ := strideCursor_bound q i E c.rest ctx 0 hB hcr
      cases hsc : strideCursor q i ctx 0 c.rest with
      | mk ctx1 err =>
        rw [hsc] at hb1 hB1
        cases err with
        | none =>
          have hb1' : ctx1.result.length ≤ ctx.result.length + E := hb1
          have hB1' : ctxEntryBound E ctx1 := hB1
          simp only
          obtain ⟨h1, h2⟩ := ih (i + 1) ctx1 hB1'
          refine ⟨?_, h2⟩
          have hmul : (rem + 1) * E = rem * E + E := Nat.succ_mul rem E
          omega
        | some e =>
          have hb1' : ctx1.result.length ≤ ctx.result.length + E := hb1
          have hmul : (rem + 1) * E = rem * E + E := Nat.succ_mul rem E
          constructor
          · show ctx1.result.length ≤ ctx.result.length + (rem + 1) * E
            omega
          · exact hB1

theorem strideFrom_phi (q : IndexQuery) (id : ID) (rem : Nat) :
    ∀ (i : Nat) (ctx : indexQueryContext),
      phi q id (strideFrom q rem i ctx).1 ≤ phi q id ctx := by
  induction rem with
  | zero => intro i ctx; exact le_refl _
  | succ rem ih =>
    intro i ctx
    cases hx : ctx.cursors.getD i none with
    | none =>
      rw [strideFrom_succ_none q rem i ctx hx]
      exact ih (i + 1) ctx
    | some c =>
      rw [strideFrom_succ_some q rem i ctx c hx]
      have hp := strideCursor_phi q i id c.rest ctx 0 c hx List.suffix_rfl
      cases hsc : strideCursor q i ctx 0 c.rest with
      | mk ctx1 err =>
        rw [hsc] at hp
        cases err with
        | none =>
          have hp' : phi q id ctx1 ≤ phi q id ctx := hp
          simp only
          exact le_trans (ih (i + 1) ctx1) hp'
        | some e => exact hp

/-! ### primeFrom unfolding equations and lemmas -/

theorem primeFrom_zero (q : IndexQuery) (i : Nat)
    (ctx : indexQueryContext) : primeFrom q 0 i ctx = (ctx, none) := rfl

theorem primeFrom_succ_none (q : IndexQuery) (rem i : Nat)
    (ctx : indexQueryContext) (h : ctx.cursors.getD i none = none) :
    primeFrom q (rem + 1) i ctx = primeFrom q rem (i + 1) ctx := by
  conv_lhs => rw [primeFrom]
  rw [h]

theorem primeFrom_succ_nil (q : IndexQuery) (rem i : Nat)
    (ctx : indexQueryContext) (c : Cursor)
    (h : ctx.cursors.getD i none = some c) (hr : c.rest = []) :
    primeFrom q (rem + 1) i ctx = primeFrom q rem (i + 1) ctx := by
  conv_lhs => rw [primeFrom]
  rw [h]
  dsimp only
  rw [hr]

theorem primeFrom_succ_nested (q : IndexQuery) (rem i : Nat)
    (ctx : indexQueryContext) (c : Cursor) (t : List BucketEntry)
    (h : ctx.cursors.getD i none = some c) (hr : c.rest = .nested :: t) :
    primeFrom q (rem + 1) i ctx =
      primeFrom q rem (i + 1) (ctx.setCursor i ⟨t⟩) := by
  conv_lhs => rw [primeFrom]
  rw [h]
  dsimp only
  rw [hr]

theorem primeFrom_succ_pair (q : IndexQuery) (rem i : Nat)
    (ctx : indexQueryContext) (c : Cursor) (k : List Nat) (v : List ID)
    (t : List BucketEntry)
    (h : ctx.cursors.getD i none = some c) (hr : c.rest = .pair k v :: t) :
    primeFrom q (rem + 1) i ctx =
      match checkPair q (ctx.setCursor i ⟨t⟩) k v i with
      | .error e =>
        (ctx.setCursor i ⟨t⟩,
          some ("failed to check value in bucekt: " ++ e))
      | .ok out => primeFrom q rem (i + 1) out.2 := by
  conv_lhs => rw [primeFrom]
  rw [h]
  dsimp only
  rw [hr]

theorem primeFrom_main (q : IndexQuery) (rem : Nat) :
    ∀ (i : Nat) (ctx : indexQueryContext), Inv ctx →
      Inv (primeFrom q rem i ctx).1 ∧
      (primeFrom q rem i ctx).1.cursors.length = ctx.cursors.length := by
  induction rem with
  | zero => intro i ctx hInv; exact ⟨hInv, rfl⟩
  | succ rem ih =>
    intro i ctx hInv
    cases hx : ctx.cursors.getD i none with
    | none =>
      rw [primeFrom_succ_none q rem i ctx hx]
      exact ih (i + 1) ctx hInv
    | some c =>
      cases hr : c.rest with
      | nil =>
        rw [primeFrom_succ_nil q rem i ctx c hx hr]
        exact ih (i + 1) ctx hInv
      | cons e t =>
        cases e with
        | nested =>
          rw [primeFrom_succ_nested q rem i ctx c t hx hr]
          have hInv1 : Inv (ctx.setCursor i ⟨t⟩) := setCursor_Inv hInv hx
          obtain ⟨h1, h2⟩ := ih (i + 1) (ctx.setCursor i ⟨t⟩) hInv1
          refine ⟨h1, ?_⟩
          rw [h2]
          exact List.length_set ..
        | pair k v =>
          rw [primeFrom_succ_pair q rem i ctx c k v t hx hr]
          have hlt : i < ctx.cursors.length := getD_some_lt hx
          have hInv1 : Inv (ctx.setCursor i ⟨t⟩) := setCursor_Inv hInv hx
          have hx1 : (ctx.setCursor i ⟨t⟩).cursors.getD i none = some ⟨t⟩ :=
            getD_set_self hlt
          cases hcp : checkPair q (ctx.setCursor i ⟨t⟩) k v i with
          | error err =>
            simp only [hcp]
            exact ⟨hInv1, List.length_set ..⟩
          | ok out =>
            simp only [hcp]
            obtain ⟨h0, hor⟩ := checkPair_ok hcp
            have hInv2 : Inv out.2 := by
              cases hor with
              | inl hfold => rw [hfold]; exact foldl_registerID_Inv _ _ _ hInv1
              | inr hrem => rw [hrem]; exact removeCursor_Inv hInv1 hx1
            have hlen2 : out.2.cursors.length = ctx.cursors.length := by
              cases hor with
              | inl hfold =>
                rw [hfold, foldl_registerID_cursors]
                exact List.length_set ..
              | inr hrem =>
                rw [hrem]
                show ((ctx.cursors.set i (some ⟨t⟩)).set i none).length = _
                rw [List.length_set, List.length_set]
            obtain ⟨h1, h2⟩ := ih (i + 1) out.2 hInv2
            refine ⟨h1, ?_⟩
            rw [h2, hlen2]

theorem primeFrom_bound (q : IndexQuery) (E : Nat) (rem : Nat) :
    ∀ (i : Nat) (ctx : indexQueryContext), ctxEntryBound E ctx →
      (primeFrom q rem i ctx).1.result.length ≤
          ctx.result.length + rem * E ∧
        ctxEntryBound E (primeFrom q rem i ctx).1 := by
  induction rem with
  | zero => intro i ctx hB; exact ⟨by simp [primeFrom_zero], hB⟩
  | succ rem ih =>
    intro i ctx hB
    have hmul : (rem + 1) * E = rem * E + E := Nat.succ_mul rem E
    cases hx : ctx.cursors.getD i none with
    | none =>
      rw [primeFrom_succ_none q rem i ctx hx]
      obtain ⟨h1, h2⟩ := ih (i + 1) ctx hB
      exact ⟨by omega, h2⟩
    | some c =>
      have hcrest : ∀ e ∈ c.rest, entryLen e ≤ E := hB c (getD_mem hx)
      cases hr : c.rest with
      | nil =>
        rw [primeFrom_succ_nil q rem i ctx c hx hr]
        obtain ⟨h1, h2⟩ := ih (i + 1) ctx hB
        exact ⟨by omega, h2⟩
      | cons e t =>
        have hterms : ∀ x ∈ t, entryLen x ≤ E := by
          intro x hxm
          exact hcrest x (by rw [hr]; exact List.mem_cons_of_mem _ hxm)
        cases e with
        | nested =>
          rw [primeFrom_succ_nested q rem i ctx c t hx hr]
          have hB1 : ctxEntryBound E (ctx.setCursor i ⟨t⟩) :=
            ctxEntryBound_setCursor hB hterms
          obtain ⟨h1, h2⟩ := ih (i + 1) (ctx.setCursor i ⟨t⟩) hB1
          have hres : (ctx.setCursor i ⟨t⟩).result = ctx.result := rfl
          rw [hres] at h1
          exact ⟨by omega, h2⟩
        | pair k v =>
          rw [primeFrom_succ_pair q rem i ctx c k v t hx hr]
          have hB1 : ctxEntryBound E (ctx.setCursor i ⟨t⟩) :=
            ctxEntryBound_setCursor hB hterms
          have hvE : v.length ≤ E := by
            have := hcrest (.pair k v) (by rw [hr]; exact List.mem_cons_self ..)
            simpa [entryLen] using this
          cases hcp : checkPair q (ctx.setCursor i ⟨t⟩) k v i with
          | error err =>
            simp only [hcp]
            exact ⟨Nat.le_add_right .., hB1⟩
          | ok out =>
            simp only [hcp]
            obtain ⟨h0, hor⟩ := checkPair_ok hcp
            have hg2 : out.2.result.length ≤ ctx.result.length + E ∧
                ctxEntryBound E out.2 := by
              cases hor with
              | inl hfold =>
                rw [hfold]
                constructor
                · have h1 := foldl_registerID_result_len q v (ctx.setCursor i ⟨t⟩)
                  have h2 : (ctx.setCursor i ⟨t⟩).result = ctx.result := rfl
                  rw [h2] at h1
                  omega
                · exact ctxEntryBound_foldl hB1
              | inr hrem =>
                rw [hrem]
                exact ⟨Nat.le_add_right .., ctxEntryBound_removeCursor hB1⟩
            obtain ⟨h1, h2⟩ := ih (i + 1) out.2 hg2.2
            exact ⟨by have := hg2.1; omega, h2⟩

theorem primeFrom_phi (q : IndexQuery) (id : ID) (rem : Nat) :
    ∀ (i : Nat) (ctx : indexQueryContext),
      phi q id (primeFrom q rem i ctx).1 ≤ phi q id ctx := by
  induction rem with
  | zero => intro i ctx; exact le_refl _
  | succ rem ih =>
    intro i ctx
    cases hx : ctx.cursors.getD i none with
    | none =>
      rw [primeFrom_succ_none q rem i ctx hx]
      exact ih (i + 1) ctx
    | some c =>
      cases hr : c.rest with
      | nil =>
        rw [primeFrom_succ_nil q rem i ctx c hx hr]
        exact ih (i + 1) ctx
      | cons e t =>
        have hcc1 : ctxCount id (ctx.setCursor i ⟨t⟩) + restCount id c.rest =
            ctxCount id ctx + restCount id t := setCursor_ctxCount hx id
        rw [hr, restCount_cons] at hcc1
        have hphi1 : phi q id (ctx.setCursor i ⟨t⟩) + entryCount id e ≤
            phi q id ctx := by
          simp only [phi, phiPart_setCursor]
          omega
        cases e with
        | nested =>
          rw [primeFrom_succ_nested q rem i ctx c t hx hr]
          exact le_trans (ih (i + 1) (ctx.setCursor i ⟨t⟩)) (by omega)
        | pair k v =>
          rw [primeFrom_succ_pair q rem i ctx c k v t hx hr]
          have hlt : i < ctx.cursors.length := getD_some_lt hx
          have hx1 : (ctx.setCursor i ⟨t⟩).cursors.getD i none = some ⟨t⟩ :=
            getD_set_self hlt
          cases hcp : checkPair q (ctx.setCursor i ⟨t⟩) k v i with
          | error err =>
            simp only [hcp]
            show phi q id (ctx.setCursor i ⟨t⟩) ≤ phi q id ctx
            omega
          | ok out =>
            simp only [hcp]
            obtain ⟨h0, hor⟩ := checkPair_ok hcp
            have hout : phi q id out.2 ≤ phi q id ctx := by
              cases hor with
              | inl hfold =>
                rw [hfold]
                have hp := foldl_registerID_phiPart q v (ctx.setCursor i ⟨t⟩) id
                have hcc2 := foldl_registerID_ctxCount q v (ctx.setCursor i ⟨t⟩) id
                have hvc : v.count id = entryCount id (.pair k v) := rfl
                simp only [phi, phiPart_setCursor] at hp ⊢
                rw [hcc2]
                simp only [phi, phiPart_setCursor] at hphi1
                omega
              | inr hrem =>
                rw [hrem]
                have hcr := removeCursor_ctxCount hx1 id
                simp only [phi, phiPart_removeCursor, phiPart_setCursor] at hphi1 ⊢
                omega
            exact le_trans (ih (i + 1) out.2) hout

/-! ### driverLoop equations and lemmas -/

theorem stride_def (q : IndexQuery) (ctx : indexQueryContext) :
    stride q ctx = strideFrom q ctx.cursors.length 0 ctx := rfl

theorem driverLoop_zero (q : IndexQuery) (f : Int)
    (ctx : indexQueryContext) : driverLoop q 0 f ctx = none := rfl

theorem driverLoop_succ (q : IndexQuery) (fuel : Nat) (f : Int)
    (ctx : indexQueryContext) :
    driverLoop q (fuel + 1) f ctx =
      if f < q.maxDesired ∧ 0 < ctx.validCursors then
        match stride q ctx with
        | (ctx1, some e) => some (ctx1, some ("failed a stride: " ++ e))
        | (ctx1, none) =>
          driverLoop q fuel ((ctx1.result.length : Int)) ctx1
      else some (ctx, none) := by
  conv_lhs => rw [driverLoop]

theorem wsum_ones_pos {l : List (Option Cursor)}
    (h : 0 < wsum (fun _ => 1) l) :
    ∃ j, j < l.length ∧ l.getD j none ≠ none := by
  induction l with
  | nil => simp [wsum] at h
  | cons a t ih =>
    cases a with
    | none =>
      rw [wsum_cons] at h
      simp only [cursorWeight, Nat.zero_add] at h
      obtain ⟨j, hj, hne⟩ := ih h
      exact ⟨j + 1, by simpa using hj, by simpa using hne⟩
    | some c =>
      refine ⟨0, by simp, ?_⟩
      rw [List.getD_cons_zero]
      exact fun hh => Option.noConfusion hh

theorem wsum_ones_eq_len {cs : List (Option Cursor)}
    (h : ∀ oc ∈ cs, oc ≠ none) :
    wsum (fun _ => 1) cs = cs.length := by
  induction cs with
  | nil => rfl
  | cons a t ih =>
    cases a with
    | none => exact absurd rfl (h none (List.mem_cons_self ..))
    | some c =>
      rw [wsum_cons]
      simp only [cursorWeight, List.length_cons]
      rw [ih (fun oc hoc => h oc (List.mem_cons_of_mem _ hoc))]
      omega

theorem wsum_le_mul {f : Cursor → Nat} {cs : List (Option Cursor)} {m : Nat}
    (h : ∀ c : Cursor, some c ∈ cs → f c ≤ m) :
    wsum f cs ≤ cs.length * m := by
  induction cs with
  | nil => simp [wsum]
  | cons a t ih =>
    rw [wsum_cons]
    have ht := ih (fun c hc => h c (List.mem_cons_of_mem _ hc))
    have ha : cursorWeight f a ≤ m := by
      cases a with
      | none => exact Nat.zero_le m
      | some c => exact h c (List.mem_cons_self ..)
    simp only [List.length_cons]
    have : (t.length + 1) * m = t.length * m + m := Nat.succ_mul ..
    omega

theorem driverLoop_terminates (q : IndexQuery) (fuel : Nat) :
    ∀ (f : Int) (ctx : indexQueryContext), Inv ctx →
      ctxMeasure ctx < fuel → driverLoop q fuel f ctx ≠ none := by
  induction fuel with
  | zero =>
    intro f ctx _ hm
    exact absurd hm (Nat.not_lt_zero _)
  | succ fuel ih =>
    intro f ctx hInv hm
    rw [driverLoop_succ]
    split
    · next hcond =>
      obtain ⟨hf, hvc⟩ := hcond
      have hpos : 0 < wsum (fun _ => 1) ctx.cursors := by
        have hInv' := hInv
        simp only [Inv] at hInv'
        omega
      obtain ⟨j, hjlt, hjne⟩ := wsum_ones_pos hpos
      obtain ⟨hInv1, hle, hstrict⟩ :=
        strideFrom_main q ctx.cursors.length 0 ctx hInv
      have hstrict' := hstrict ⟨j, Nat.zero_le _, by omega, hjne⟩
      cases hst : stride q ctx with
      | mk ctx1 err =>
        rw [stride_def] at hst
        rw [hst] at hInv1 hstrict'
        cases err with
        | some e => simp
        | none =>
          have hInv1' : Inv ctx1 := hInv1
          have hstrict'' : ctxMeasure ctx1 < ctxMeasure ctx := hstrict'
          simp only
          exact ih _ ctx1 hInv1' (by omega)
    · simp

theorem driverLoop_none_pres (q : IndexQuery) (fuel : Nat) :
    ∀ (f : Int) (ctx : indexQueryContext)
      (out : indexQueryContext × Option String) (i : Nat),
      ctx.cursors.getD i none = none → driverLoop q fuel f ctx = some out →
      out.1.cursors.getD i none = none := by
  induction fuel with
  | zero =>
    intro f ctx out i _ h
    exact absurd h (by rw [driverLoop_zero]; simp)
  | succ fuel ih =>
    intro f ctx out i hni h
    rw [driverLoop_succ] at h
    split at h
    · cases hst : stride q ctx with
      | mk ctx1 err =>
        rw [hst] at h
        have hpres : ctx1.cursors.getD i none = none := by
          have := strideFrom_none_pres q ctx.cursors.length 0 ctx i hni
          rw [← stride_def, hst] at this
          exact this
        cases err with
        | some e =>
          simp only at h
          cases h
          exact hpres
        | none =>
          simp only at h
          exact ih _ ctx1 out i hpres h
    · cases h
      exact hni

theorem driverLoop_phi (q : IndexQuery) (id : ID) (fuel : Nat) :
    ∀ (f : Int) (ctx : indexQueryContext)
      (out : indexQueryContext × Option String),
      driverLoop q fuel f ctx = some out →
      phi q id out.1 ≤ phi q id ctx := by
  induction fuel with
  | zero =>
    intro f ctx out h
    exact absurd h (by rw [driverLoop_zero]; simp)
  | succ fuel ih =>
    intro f ctx out h
    rw [driverLoop_succ] at h
    split at h
    · cases hst : stride q ctx with
      | mk ctx1 err =>
        rw [hst] at h
        have hp : phi q id ctx1 ≤ phi q id ctx := by
          have := strideFrom_phi q id ctx.cursors.length 0 ctx
          rw [← stride_def, hst] at this
          exact this
        cases err with
        | some e =>
          simp only at h
          cases h
          exact hp
        | none =>
          simp only at h
          exact le_trans (ih _ ctx1 out h) hp
    · cases h
      exact le_refl _

/-! ### openCursors and initContext lemmas -/

theorem openCursors_spec (q : IndexQuery) (snap : Snapshot) :
    ∀ (mods : List StringHeapID) (cs : List (Option Cursor)),
      openCursors q snap mods = .ok cs →
      cs.length = mods.length ∧
      (∀ oc ∈ cs, oc ≠ none) ∧
      (∀ c : Cursor, some c ∈ cs → ∃ mod ∈ mods, ∃ bucket,
        snap.getItemModIndexBucketRO q.rootType q.rootFlavor mod q.league =
          .ok bucket ∧ c.rest = bucket.reverse) := by
  intro mods
  induction mods with
  | nil =>
    intro cs h
    simp only [openCursors] at h
    cases h
    refine ⟨rfl, by simp, by simp⟩
  | cons mod rest ih =>
    intro cs h
    simp only [openCursors] at h
    cases hb : snap.getItemModIndexBucketRO q.rootType q.rootFlavor mod
        q.league with
    | error e =>
      rw [hb] at h
      exact absurd h (by simp)
    | ok bucket =>
      rw [hb] at h
      cases ho : openCursors q snap rest with
      | error e =>
        rw [ho] at h
        exact absurd h (by simp)
      | ok cs2 =>
        rw [ho] at h
        simp only at h
        cases h
        obtain ⟨h1, h2, h3⟩ := ih cs2 ho
        refine ⟨by simp [h1], ?_, ?_⟩
        · intro oc hoc
          rcases List.mem_cons.mp hoc with rfl | hmem
          · exact fun hh => Option.noConfusion hh
          · exact h2 oc hmem
        · intro c hc
          rcases List.mem_cons.mp hc with heq | hmem
          · have hcc : c = (⟨bucket.reverse⟩ : Cursor) := by
              injection heq
            refine ⟨mod, List.mem_cons_self .., bucket, hb, ?_⟩
            rw [hcc]
          · obtain ⟨m, hm, b, hob, hcr⟩ := h3 c hmem
            exact ⟨m, List.mem_cons_of_mem _ hm, b, hob, hcr⟩

theorem openCursors_total (q : IndexQuery) (snap : Snapshot) :
    ∀ (mods : List StringHeapID),
      (∀ mod ∈ mods, ∃ bucket,
        snap.getItemModIndexBucketRO q.rootType q.rootFlavor mod q.league =
          .ok bucket) →
      ∃ cs, openCursors q snap mods = .ok cs := by
  intro mods
  induction mods with
  | nil => intro _; exact ⟨[], rfl⟩
  | cons mod rest ih =>
    intro h
    obtain ⟨bucket, hb⟩ := h mod (List.mem_cons_self ..)
    obtain ⟨cs2, ho⟩ := ih (fun m hm => h m (List.mem_cons_of_mem _ hm))
    refine ⟨some ⟨bucket.reverse⟩ :: cs2, ?_⟩
    simp only [openCursors]
    rw [hb, ho]

theorem initContext_ok {q : IndexQuery} {snap : Snapshot}
    {ctx0 : indexQueryContext} (h : initContext q snap = .ok ctx0) :
    ∃ cs, openCursors q snap q.mods = .ok cs ∧
      ctx0 = ⟨(cs.length : Int), cs, fun _ => 0, []⟩ := by
  unfold initContext at h
  cases ho : openCursors q snap q.mods with
  | error e =>
    rw [ho] at h
    exact absurd h (by simp)
  | ok cs =>
    rw [ho] at h
    simp only at h
    by_cases hK : q.maxDesired < 0
    · rw [if_pos hK] at h
      exact absurd h (by simp)
    · rw [if_neg hK] at h
      cases h
      exact ⟨cs, rfl, rfl⟩

theorem Run_eq_panicked {q : IndexQuery} {snap : Snapshot} {e : String}
    (h : initContext q snap = .error e) : Run q snap = .panicked := by
  unfold Run
  rw [h]

theorem Run_initPanicked {q : IndexQuery} {snap : Snapshot}
    (h : initContext q snap = .panicked) : Run q snap = .panicked := by
  unfold Run
  rw [h]

theorem Run_eq_ok {q : IndexQuery} {snap : Snapshot}
    {ctx0 : indexQueryContext} (h : initContext q snap = .ok ctx0) :
    Run q snap =
      (match primeCursors q ctx0 with
       | (ctx1, some e) => .returned ctx1.result (some e)
       | (ctx1, none) =>
         match driverLoop q (ctxMeasure ctx1 + 1) 0 ctx1 with
         | none => .diverged
         | some (ctx2, none) => .returned ctx2.result none
         | some (ctx2, some e) => .returned ctx2.result (some e)) := by
  unfold Run
  rw [h]

theorem primeCursors_def (q : IndexQuery) (ctx : indexQueryContext) :
    primeCursors q ctx = primeFrom q ctx.cursors.length 0 ctx := rfl

theorem initContext_Inv {q : IndexQuery} {snap : Snapshot}
    {ctx0 : indexQueryContext} (h : initContext q snap = .ok ctx0) :
    Inv ctx0 := by
  obtain ⟨cs, ho, rfl⟩ := initContext_ok h
  obtain ⟨hlen, hnn, -⟩ := openCursors_spec q snap q.mods cs ho
  simp only [Inv]
  rw [wsum_ones_eq_len hnn]

theorem initContext_len {q : IndexQuery} {snap : Snapshot}
    {ctx0 : indexQueryContext} (h : initContext q snap = .ok ctx0) :
    ctx0.cursors.length = q.mods.length := by
  obtain ⟨cs, ho, rfl⟩ := initContext_ok h
  obtain ⟨hlen, -, -⟩ := openCursors_spec q snap q.mods cs ho
  exact hlen

theorem initContext_result {q : IndexQuery} {snap : Snapshot}
    {ctx0 : indexQueryContext} (h : initContext q snap = .ok ctx0) :
    ctx0.result = [] := by
  obtain ⟨cs, ho, rfl⟩ := initContext_ok h
  rfl

theorem Run_returned_cases {q : IndexQuery} {snap : Snapshot}
    {result : List ID} {err : Option String}
    (h : Run q snap = .returned result err) :
    ∃ ctx0 ctxF, initContext q snap = .ok ctx0 ∧ result = ctxF.result ∧
      ((∃ e, primeCursors q ctx0 = (ctxF, some e)) ∨
        (∃ ctx1 err2, primeCursors q ctx0 = (ctx1, none) ∧
          driverLoop q (ctxMeasure ctx1 + 1) 0 ctx1 = some (ctxF, err2))) := by
  cases hic : initContext q snap with
  | error e =>
    rw [Run_eq_panicked hic] at h
    exact absurd h (by simp)
  | panicked =>
    rw [Run_initPanicked hic] at h
    exact absurd h (by simp)
  | ok ctx0 =>
    rw [Run_eq_ok hic] at h
    cases hpc : primeCursors q ctx0 with
    | mk ctx1 perr =>
      rw [hpc] at h
      cases perr with
      | some e =>
        have h2 : RunOutcome.returned ctx1.result (some e) =
            RunOutcome.returned result err := h
        rw [RunOutcome.returned.injEq] at h2
        exact ⟨ctx0, ctx1, rfl, h2.1.symm, Or.inl ⟨e, hpc⟩⟩
      | none =>
        have h2 : (match driverLoop q (ctxMeasure ctx1 + 1) 0 ctx1 with
            | none => RunOutcome.diverged
            | some (ctx2, none) => RunOutcome.returned ctx2.result none
            | some (ctx2, some e) =>
              RunOutcome.returned ctx2.result (some e)) =
            RunOutcome.returned result err := h
        cases hdl : driverLoop q (ctxMeasure ctx1 + 1) 0 ctx1 with
        | none =>
          rw [hdl] at h2
          exact absurd h2 (by simp)
        | some out =>
          rw [hdl] at h2
          cases out with
          | mk ctx2 err2 =>
            cases err2 with
            | none =>
              have h3 : RunOutcome.returned ctx2.result none =
                  RunOutcome.returned result err := h2
              rw [RunOutcome.returned.injEq] at h3
              exact ⟨ctx0, ctx2, rfl, h3.1.symm,
                Or.inr ⟨ctx1, none, hpc, hdl⟩⟩
            | some e2 =>
              have h3 : RunOutcome.returned ctx2.result (some e2) =
                  RunOutcome.returned result err := h2
              rw [RunOutcome.returned.injEq] at h3
              exact ⟨ctx0, ctx2, rfl, h3.1.symm,
                Or.inr ⟨ctx1, some e2, hpc, hdl⟩⟩

theorem initContext_phi {q : IndexQuery} {snap : Snapshot}
    {ctx0 : indexQueryContext} (h : initContext q snap = .ok ctx0) (id : ID)
    (hm : ∀ mod ∈ q.mods, ∀ bucket,
      snap.getItemModIndexBucketRO q.rootType q.rootFlavor mod q.league =
        .ok bucket → restCount id bucket ≤ 1) :
    phi q id ctx0 ≤ q.mods.length := by
  obtain ⟨cs, ho, rfl⟩ := initContext_ok h
  obtain ⟨hlen, hnn, hslots⟩ := openCursors_spec q snap q.mods cs ho
  have hle : ∀ c : Cursor, some c ∈ cs → restCount id c.rest ≤ 1 := by
    intro c hc
    obtain ⟨mod, hmod, bucket, hob, hcr⟩ := hslots c hc
    rw [hcr]
    have hrev : restCount id bucket.reverse = restCount id bucket := by
      simp [restCount, List.map_reverse, List.sum_reverse]
    rw [hrev]
    exact hm mod hmod bucket hob
  have hcc : wsum (fun c => restCount id c.rest) cs ≤ cs.length * 1 :=
    wsum_le_mul hle
  rw [hlen, Nat.mul_one] at hcc
  simp only [phi, phiPart, ctxCount]
  simp only [List.count_nil, Nat.mul_zero, Nat.zero_add]
  exact hcc

/-! ### Claim C3 and C4: code evaluations at the failing inputs -/

/-- Claim C3 (code_bug evaluation): the spec and `checkPair`'s own doc
comment say the per-cursor inner loop keeps iterating until about
`S = 32` IDs have been observed, the cursor is exhausted, or the
predicate fails.  In fact `checkPair` never increments its `idCount`
local, so it returns 0 even when it registers IDs, and the stride pass
stops after a single data pair: on a cursor holding two qualifying
single-ID pairs, one pass registers only the first pair's ID (result
grows from `[3]` to `[3, 2]`) and leaves the second qualifying pair
unread on a still-live cursor. -/
theorem claim_C3_code_eval :
    (stride qC3cx ctxC3cx).2 = none ∧
    (stride qC3cx ctxC3cx).1.result = [3, 2] ∧
    (stride qC3cx ctxC3cx).1.cursors = [some ⟨[.pair [0, 20] [1]]⟩] ∧
    (checkPair qC3cx ctxC3cx [0, 30] [2] 0).toOption.map Prod.fst = some 0 := by
  decide

/-- Claim C4 (code_bug evaluation): when the required bucket cannot be
opened, `initContext` returns an error, and `Run` then evaluates
`q.ctx.result` with `q.ctx` still nil — a nil-pointer panic instead of
the BucketOpen error the spec promises the caller. -/
theorem claim_C4_code_eval : Run qC4cx snapC4cx = .panicked := by decide

/-! ### Claims C1 and C2: counterexamples -/

/-- Claim C1 counterexample: with `maxDesired = 1`, a single entry whose
payload packs two IDs makes `Run` return a result of length 2 — the
result list can exceed `maxDesired`, because `registerID` appends with no
cap and the driver only checks the bound between passes. -/
theorem claim_C1_counterexample :
    Run qC1cx snapC1cx = .returned [3, 4] none ∧
    ¬ ((([3, 4] : List ID).length : Int) ≤ qC1cx.maxDesired) := by
  decide

/-- Claim C2 counterexample: an entry packing the same ID twice makes the
accumulator promote that ID twice (each time its count re-reaches
`len(mods)` it is appended and deleted), so the result contains a
duplicate. -/
theorem claim_C2_counterexample :
    Run qC2cx snapC2cx = .returned [7, 7] none ∧
    ¬ ([7, 7] : List ID).Nodup := by
  decide

/-! ### Claim C9: the required map and satisfaction counting -/

theorem mapLookup_nil (k : String) : mapLookup [] k = none := rfl

theorem mapLookup_cons (k' : String) (v' : Nat) (rest : List (String × Nat))
    (k : String) :
    mapLookup ((k', v') :: rest) k =
      if k' = k then some v' else mapLookup rest k := by
  by_cases h : k' = k
  · have hb : (k' == k) = true := beq_iff_eq.mpr h
    simp [mapLookup, List.find?_cons, hb, h]
  · have hb : (k' == k) = false := beq_eq_false_iff_ne.mpr h
    simp [mapLookup, List.find?_cons, hb, h]

theorem mapLookup_not_mem {req : List (String × Nat)} {k : String}
    (h : k ∉ req.map Prod.fst) : mapLookup req k = none := by
  induction req with
  | nil => rfl
  | cons p rest ih =>
    cases p with
    | mk k' v' =>
      rw [List.map_cons] at h
      rw [mapLookup_cons,
        if_neg (fun hh => h (by rw [hh]; exact List.mem_cons_self ..))]
      exact ih fun hh => h (List.mem_cons_of_mem _ hh)

theorem mapLookup_isSome_mem {req : List (String × Nat)} {k : String}
    (h : (mapLookup req k).isSome) : k ∈ req.map Prod.fst := by
  by_contra hc
  rw [mapLookup_not_mem hc] at h
  exact absurd h (by simp)

theorem mapInsert_append (k : String) (v : Nat) :
    ∀ acc : List (String × Nat), (∀ p ∈ acc, p.1 ≠ k) →
      mapInsert k v acc = acc ++ [(k, v)] := by
  intro acc
  induction acc with
  | nil => intro _; rfl
  | cons p rest ih =>
    intro h
    simp only [mapInsert]
    rw [if_neg (h p (List.mem_cons_self ..))]
    rw [ih fun p2 hp2 => h p2 (List.mem_cons_of_mem _ hp2)]
    rfl

theorem foldl_mapInsert_eq :
    ∀ (pairs acc : List (String × Nat)),
      (pairs.map Prod.fst).Nodup →
      (∀ p ∈ pairs, ∀ p2 ∈ acc, p2.1 ≠ p.1) →
      pairs.foldl (fun acc p => mapInsert p.1 p.2 acc) acc = acc ++ pairs := by
  intro pairs
  induction pairs with
  | nil => intro acc _ _; simp
  | cons p rest ih =>
    intro acc hnd hdisj
    rw [List.map_cons] at hnd
    have hnd0 := List.nodup_cons.mp hnd
    simp only [List.foldl_cons]
    have hmi : mapInsert p.1 p.2 acc = acc ++ [p] :=
      mapInsert_append _ _ acc
        (fun p2 hp2 => hdisj p (List.mem_cons_self ..) p2 hp2)
    rw [hmi]
    have hdisj2 : ∀ r ∈ rest, ∀ p2 ∈ acc ++ [p], p2.1 ≠ r.1 := by
      intro r hr p2 hp2
      rcases List.mem_append.mp hp2 with hq1 | hq2
      · exact hdisj r (List.mem_cons_of_mem _ hr) p2 hq1
      · rw [List.mem_singleton.mp hq2]
        intro heq
        exact hnd0.1 (heq ▸ List.mem_map_of_mem Prod.fst hr)
    rw [ih (acc ++ [p]) hnd0.2 hdisj2]
    rw [List.append_assoc]
    rfl

theorem buildRequired_eq {pairs : List (String × Nat)}
    (hnd : (pairs.map Prod.fst).Nodup) : buildRequired pairs = pairs := by
  unfold buildRequired
  rw [foldl_mapInsert_eq pairs [] hnd (by intro p _ p2 hp2; simp at hp2)]
  simp

theorem countP_split (p q : ItemMod → Bool) (l : List ItemMod) :
    l.countP p = l.countP (fun x => p x && q x) +
      l.countP (fun x => p x && !q x) := by
  induction l with
  | nil => rfl
  | cons a t ih =>
    rw [List.countP_cons, List.countP_cons, List.countP_cons]
    cases hp : p a <;> cases hq : q a <;> simp [hp, hq] <;> omega

theorem modsSatisfied_eq_countP (req : List (String × Nat)) :
    ∀ ms : List ItemMod,
      (∀ m ∈ ms, (mapLookup req m.Template).isSome → m.Values ≠ []) →
      modsSatisfied req ms = some (ms.countP (satPred req)) := by
  intro ms
  induction ms with
  | nil => intro _; rfl
  | cons m rest ih =>
    intro hv
    have hrest := ih fun m2 hm2 => hv m2 (List.mem_cons_of_mem _ hm2)
    simp only [modsSatisfied]
    cases hlk : mapLookup req m.Template with
    | none =>
      rw [hrest, List.countP_cons]
      have hsp : satPred req m = false := by
        simp [satPred, hlk]
      rw [hsp]
      simp
    | some minv =>
      have hne : m.Values ≠ [] :=
        hv m (List.mem_cons_self ..) (by rw [hlk]; rfl)
      cases hval : m.Values with
      | nil => exact absurd hval hne
      | cons v0 vs =>
        simp only [hrest]
        rw [List.countP_cons]
        have hsp : satPred req m = decide (minv ≤ v0) := by
          simp [satPred, hlk, hval]
        rw [hsp]
        by_cases hle : minv ≤ v0
        · simp [hle]
        · simp [hle]

theorem countP_le_keys (ms : List ItemMod) :
    ∀ req : List (String × Nat), (req.map Prod.fst).Nodup →
      (∀ p ∈ req, (ms.filter (fun m => m.Template == p.1)).length ≤ 1) →
      ms.countP (satPred req) ≤ req.length ∧
      (req.length ≤ ms.countP (satPred req) ↔
        ∀ p ∈ req, ∃ m ∈ ms, m.Template = p.1 ∧
          p.2 ≤ m.Values.headD 0) := by
  intro req
  induction req with
  | nil =>
    intro _ _
    have h0 : ms.countP (satPred []) = 0 := by
      rw [List.countP_eq_length_filter]
      have : ms.filter (satPred []) = [] := by
        apply List.filter_eq_nil_iff.mpr
        intro m _
        simp [satPred, mapLookup_nil]
      rw [this]
      rfl
    refine ⟨by rw [h0]; exact Nat.zero_le _, ?_⟩
    exact iff_of_true (Nat.zero_le _) fun p hp => absurd hp (List.not_mem_nil p)
  | cons pr rest ih =>
    intro hnd hone
    cases pr with
    | mk k vmin =>
      rw [List.map_cons] at hnd
      have hnd0 := List.nodup_cons.mp hnd
      have hknotin : k ∉ rest.map Prod.fst := hnd0.1
      obtain ⟨ihle, ihiff⟩ := ih hnd0.2
        (fun p hp => hone p (List.mem_cons_of_mem _ hp))
      have hsplit := countP_split (satPred ((k, vmin) :: rest))
        (fun m => m.Template == k) ms
      have hcK_le : ms.countP (fun m =>
          satPred ((k, vmin) :: rest) m && (m.Template == k)) ≤ 1 := by
        have h1 : ms.countP (fun m =>
            satPred ((k, vmin) :: rest) m && (m.Template == k)) ≤
            ms.countP (fun m => m.Template == k) :=
          List.countP_mono_left fun m _ hm => (Bool.and_eq_true .. |>.mp hm).2
        have h2 : ms.countP (fun m => m.Template == k) =
            (ms.filter (fun m => m.Template == k)).length :=
          List.countP_eq_length_filter ..
        have h3 := hone (k, vmin) (List.mem_cons_self ..)
        simp only at h3
        omega
      have hcongr : ms.countP (fun m =>
          satPred ((k, vmin) :: rest) m && !(m.Template == k)) =
          ms.countP (satPred rest) := by
        apply List.countP_congr
        intro m _
        by_cases htm : m.Template = k
        · have hl : satPred rest m = false := by
            simp only [satPred]
            rw [mapLookup_not_mem (by rw [htm]; exact hknotin)]
          simp [htm, hl]
        · have hlk : mapLookup ((k, vmin) :: rest) m.Template =
              mapLookup rest m.Template := by
            rw [mapLookup_cons, if_neg fun hh => htm hh.symm]
          simp [satPred, hlk, htm]
      refine ⟨?_, ?_, ?_⟩
      · rw [hsplit, hcongr]
        simp only [List.length_cons]
        omega
      · intro hge
        rw [List.length_cons, hsplit, hcongr] at hge
        have hcK1 : 1 ≤ ms.countP (fun m =>
            satPred ((k, vmin) :: rest) m && (m.Template == k)) := by omega
        have hrest_ge : rest.length ≤ ms.countP (satPred rest) := by omega
        intro p hp
        rcases List.mem_cons.mp hp with rfl | hp2
        · obtain ⟨m, hm, hpm⟩ := List.countP_pos_iff.mp (by omega :
            0 < ms.countP (fun m =>
              satPred ((k, vmin) :: rest) m && (m.Template == k)))
          rw [Bool.and_eq_true] at hpm
          have htm : m.Template = k := by simpa using hpm.2
          have hsp := hpm.1
          have hlk : mapLookup ((k, vmin) :: rest) m.Template = some vmin := by
            rw [mapLookup_cons, if_pos htm.symm]
          simp only [satPred, hlk, decide_eq_true_eq] at hsp
          exact ⟨m, hm, htm, hsp⟩
        · exact ihiff.mp hrest_ge p hp2
      · intro hall
        have h1 : 1 ≤ ms.countP (fun m =>
            satPred ((k, vmin) :: rest) m && (m.Template == k)) := by
          obtain ⟨m, hm, htm, hvv⟩ := hall (k, vmin) (List.mem_cons_self ..)
          apply List.countP_pos_iff.mpr
          refine ⟨m, hm, ?_⟩
          rw [Bool.and_eq_true]
          constructor
          · have hlk : mapLookup ((k, vmin) :: rest) m.Template =
                some vmin := by
              rw [mapLookup_cons, if_pos htm.symm]
            simp only [satPred, hlk]
            exact decide_eq_true hvv
          · simpa using htm
        have h2 : rest.length ≤ ms.countP (satPred rest) :=
          ihiff.mpr fun p hp => hall p (List.mem_cons_of_mem _ hp)
        rw [List.length_cons, hsplit, hcongr]
        omega

theorem all_congr_items {f g : Item → Bool} (l : List Item)
    (h : ∀ x ∈ l, f x = g x) : l.all f = l.all g := by
  induction l with
  | nil => rfl
  | cons a t ih =>
    rw [List.all_cons, List.all_cons, h a (List.mem_cons_self ..),
      ih fun x hx => h x (List.mem_cons_of_mem _ hx)]

theorem satisfiesLoop_eq (req : List (String × Nat)) (n : Nat) :
    ∀ items : List Item,
      (∀ item ∈ items, ∀ m ∈ item.mods,
        (mapLookup req m.Template).isSome → m.Values ≠ []) →
      satisfiesLoop req n items =
        some (items.all fun item =>
          decide (n ≤ item.mods.countP (satPred req))) := by
  intro items
  induction items with
  | nil => intro _; rfl
  | cons item rest ih =>
    intro hv
    have hms : modsSatisfied req item.GetMods =
        some (item.mods.countP (satPred req)) :=
      modsSatisfied_eq_countP req item.mods (hv item (List.mem_cons_self ..))
    simp only [satisfiesLoop, hms]
    by_cases hlt : item.mods.countP (satPred req) < n
    · rw [if_pos hlt, List.all_cons]
      have hd : decide (n ≤ item.mods.countP (satPred req)) = false := by
        simp
        omega
      rw [hd]
      simp
    · rw [if_neg hlt]
      rw [ih fun it hit => hv it (List.mem_cons_of_mem _ hit)]
      rw [List.all_cons]
      have hd : decide (n ≤ item.mods.countP (satPred req)) = true := by
        simp
        omega
      rw [hd]
      simp

/-- Claim C9 (amended): `Satisfies` counts satisfied mod instances, so
the claimed per-mod characterization fails when an item carries several
instances of one predicate mod (see the counterexample).  With the
predicate's mod names distinct, each item carrying at most one instance
of each predicate-named mod, and predicate-named instances carrying a
nonempty value list (so `mod.Values[0]` does not panic), `Satisfies`
agrees exactly with the spec's characterization: every item has, for
each mod named in the predicate, an instance whose primary value meets
the unscaled minimum; extra mods outside the predicate never cause the
check to fail. -/
theorem claim_C9 (s : MultiModSearch) (items : List Item)
    (hlen : s.Mods.length = s.MinValues.length)
    (hnd : s.Mods.Nodup)
    (hone : ∀ item ∈ items, ∀ name ∈ s.Mods,
      (item.mods.filter (fun m => m.Template == name)).length ≤ 1)
    (hvals : ∀ item ∈ items, ∀ m ∈ item.mods,
      m.Template ∈ s.Mods → m.Values ≠ []) :
    s.Satisfies items = some (specSatisfies s items) := by
  have hkeys : (s.Mods.zip s.MinValues).map Prod.fst = s.Mods :=
    List.map_fst_zip _ _ (le_of_eq hlen)
  have hndz : ((s.Mods.zip s.MinValues).map Prod.fst).Nodup := by
    rw [hkeys]
    exact hnd
  have hreq : buildRequired (s.Mods.zip s.MinValues) =
      s.Mods.zip s.MinValues := buildRequired_eq hndz
  have hzlen : (s.Mods.zip s.MinValues).length = s.Mods.length := by
    rw [List.length_zip, ← hlen, Nat.min_self]
  unfold MultiModSearch.Satisfies
  rw [if_neg fun hne => hne hlen, hreq]
  have hv : ∀ item ∈ items, ∀ m ∈ item.mods,
      (mapLookup (s.Mods.zip s.MinValues) m.Template).isSome →
      m.Values ≠ [] := by
    intro item hitem m hm hsome
    apply hvals item hitem m hm
    have hmem := mapLookup_isSome_mem hsome
    rw [hkeys] at hmem
    exact hmem
  rw [satisfiesLoop_eq (s.Mods.zip s.MinValues) s.Mods.length items hv]
  unfold specSatisfies
  congr 1
  apply all_congr_items
  intro item hitem
  obtain ⟨hle, hiff⟩ := countP_le_keys item.mods (s.Mods.zip s.MinValues)
    hndz (fun p hp => hone item hitem p.1 (List.of_mem_zip hp).1)
  by_cases hcase : s.Mods.length ≤ item.mods.countP
      (satPred (s.Mods.zip s.MinValues))
  · have hiff2 := hiff.mp (by rw [hzlen]; exact hcase)
    have hall : ((s.Mods.zip s.MinValues).all fun p =>
        item.mods.any fun m =>
          m.Template == p.1 && decide (p.2 ≤ m.Values.headD 0)) = true := by
      rw [List.all_eq_true]
      intro p hp
      obtain ⟨m, hm, htm, hvv⟩ := hiff2 p hp
      rw [List.any_eq_true]
      refine ⟨m, hm, ?_⟩
      rw [Bool.and_eq_true]
      exact ⟨by simpa using htm, decide_eq_true hvv⟩
    rw [hall, decide_eq_true hcase]
  · have hnall : ((s.Mods.zip s.MinValues).all fun p =>
        item.mods.any fun m =>
          m.Template == p.1 && decide (p.2 ≤ m.Values.headD 0)) = false := by
      rw [Bool.eq_false_iff]
      intro htrue
      rw [List.all_eq_true] at htrue
      apply hcase
      rw [← hzlen]
      apply hiff.mpr
      intro p hp
      have hany := htrue p hp
      rw [List.any_eq_true] at hany
      obtain ⟨m, hm, hma⟩ := hany
      rw [Bool.and_eq_true] at hma
      exact ⟨m, hm, by simpa using hma.1, by simpa using hma.2⟩
    rw [hnall, decide_eq_false hcase]

/-- Witness for the amended claim C9: a two-mod search against one item
meeting both minima and carrying an extra mod (with an empty value list)
outside the predicate. -/
theorem claim_C9_witness :
    searchC9w.Satisfies itemsC9w = some (specSatisfies searchC9w itemsC9w) :=
  claim_C9 searchC9w itemsC9w rfl (by decide) (by decide) (by decide)

/-! ### Claim C9 counterexample and claim C10 -/

/-- Claim C9 counterexample: `Satisfies` counts satisfied mod
*instances*, not distinct predicate mods, so an item carrying two
instances of mod "a" (both meeting the minimum) and no mod "b" at all
reaches the count `2 = len(Mods)` and passes, although the claim's
characterization requires an instance for each mod in the predicate. -/
theorem claim_C9_counterexample :
    MultiModSearch.Satisfies searchC9cx [itemC9cx] = some true ∧
    specSatisfies searchC9cx [itemC9cx] = false := by
  decide

/-- Claim C10: with matching lengths, `Satisfies` on an empty item list
never enters its item loop and returns true — the check is vacuously
satisfied. -/
theorem claim_C10 (s : MultiModSearch)
    (h : s.Mods.length = s.MinValues.length) :
    s.Satisfies [] = some true := by
  simp [MultiModSearch.Satisfies, h, satisfiesLoop]

theorem initContext_bound {q : IndexQuery} {snap : Snapshot}
    {ctx0 : indexQueryContext} {E : Nat}
    (h : initContext q snap = .ok ctx0)
    (hm : ∀ mod ∈ q.mods, ∀ bucket,
      snap.getItemModIndexBucketRO q.rootType q.rootFlavor mod q.league =
        .ok bucket → ∀ e ∈ bucket, entryLen e ≤ E) :
    ctxEntryBound E ctx0 := by
  obtain ⟨cs, ho, rfl⟩ := initContext_ok h
  obtain ⟨-, -, hslots⟩ := openCursors_spec q snap q.mods cs ho
  intro c hc e he
  obtain ⟨mod, hmod, bucket, hob, hcr⟩ := hslots c hc
  rw [hcr] at he
  exact hm mod hmod bucket hob e (List.mem_reverse.mp he)

theorem driverLoop_bound_steady (q : IndexQuery) (E nn : Nat) (fuel : Nat) :
    ∀ (ctx : indexQueryContext) (out : indexQueryContext × Option String),
      ctxEntryBound E ctx → ctx.cursors.length = nn →
      driverLoop q fuel ((ctx.result.length : Int)) ctx = some out →
      (out.1.result.length : Int) ≤
        max ((ctx.result.length : Int))
          (q.maxDesired - 1 + ((nn * E : Nat) : Int)) := by
  induction fuel with
  | zero =>
    intro ctx out _ _ h
    exact absurd h (by rw [driverLoop_zero]; simp)
  | succ fuel ih =>
    intro ctx out hB hnn h
    rw [driverLoop_succ] at h
    split at h
    · next hcond =>
      obtain ⟨hf, hvc⟩ := hcond
      obtain ⟨hb1, hB1⟩ := strideFrom_bound q E ctx.cursors.length 0 ctx hB
      have hlen1 := strideFrom_len q ctx.cursors.length 0 ctx
      cases hst : stride q ctx with
      | mk ctx1 err =>
        rw [stride_def] at hst
        rw [hst] at hb1 hB1 hlen1
        have hb1' : ctx1.result.length ≤ ctx.result.length + nn * E := by
          have hx : ctx1.result.length ≤
              ctx.result.length + ctx.cursors.length * E := hb1
          rw [hnn] at hx
          exact hx
        have hB1' : ctxEntryBound E ctx1 := hB1
        have hlen1' : ctx1.cursors.length = nn := by
          have hx : ctx1.cursors.length = ctx.cursors.length := hlen1
          rw [hx, hnn]
        rw [← stride_def] at hst
        rw [hst] at h
        cases err with
        | some e =>
          simp only at h
          rw [Option.some.injEq] at h
          have hout : out.1 = ctx1 := by rw [← h]
          rw [hout]
          have hle : (ctx1.result.length : Int) ≤
              q.maxDesired - 1 + ((nn * E : Nat) : Int) := by
            omega
          exact le_trans hle (le_max_right _ _)
        | none =>
          simp only at h
          have hout := ih ctx1 out hB1' hlen1' h
          have hL1 : (ctx1.result.length : Int) ≤
              q.maxDesired - 1 + ((nn * E : Nat) : Int) := by omega
          rw [max_eq_right hL1] at hout
          exact le_trans hout (le_max_right _ _)
    · rw [Option.some.injEq] at h
      have hout : out.1 = ctx := by rw [← h]
      rw [hout]
      exact le_max_left _ _

theorem driverLoop_bound_first (q : IndexQuery) (E nn : Nat) (fuel : Nat)
    (ctx : indexQueryContext) (out : indexQueryContext × Option String)
    (hB : ctxEntryBound E ctx) (hnn : ctx.cursors.length = nn)
    (h : driverLoop q fuel 0 ctx = some out) :
    (out.1.result.length : Int) ≤
      max ((ctx.result.length : Int) + ((nn * E : Nat) : Int))
        (q.maxDesired - 1 + ((nn * E : Nat) : Int)) := by
  cases fuel with
  | zero => exact absurd h (by rw [driverLoop_zero]; simp)
  | succ fuel =>
    rw [driverLoop_succ] at h
    split at h
    · obtain ⟨hb1, hB1⟩ := strideFrom_bound q E ctx.cursors.length 0 ctx hB
      have hlen1 := strideFrom_len q ctx.cursors.length 0 ctx
      cases hst : stride q ctx with
      | mk ctx1 err =>
        rw [stride_def] at hst
        rw [hst] at hb1 hB1 hlen1
        have hb1' : ctx1.result.length ≤ ctx.result.length + nn * E := by
          have hx : ctx1.result.length ≤
              ctx.result.length + ctx.cursors.length * E := hb1
          rw [hnn] at hx
          exact hx
        have hB1' : ctxEntryBound E ctx1 := hB1
        have hlen1' : ctx1.cursors.length = nn := by
          have hx : ctx1.cursors.length = ctx.cursors.length := hlen1
          rw [hx, hnn]
        rw [← stride_def] at hst
        rw [hst] at h
        cases err with
        | some e =>
          simp only at h
          rw [Option.some.injEq] at h
          have hout : out.1 = ctx1 := by rw [← h]
          rw [hout]
          refine le_trans ?_ (le_max_left _ _)
          omega
        | none =>
          simp only at h
          have hsteady := driverLoop_bound_steady q E nn fuel ctx1 out
            hB1' hlen1' h
          refine le_trans hsteady (max_le_max ?_ (le_refl _))
          omega
    · rw [Option.some.injEq] at h
      have hout : out.1 = ctx := by rw [← h]
      rw [hout]
      refine le_trans ?_ (le_max_left _ _)
      omega

/-! ### Claim C1 (amended) -/

/-- Claim C1 (amended): the strict bound `len(result) ≤ maxDesired` fails
(see the counterexample) because the driver checks the bound only
between passes and a single pass may register many IDs; what holds is
the bound weakened by one pass's worth of registrations: if every entry
packs at most `E` IDs and `maxDesired ≥ 1`, then the result length is at
most `maxDesired - 1 + 2·len(mods)·E` (one pass can append at most
`len(mods)·E` IDs, and priming may contribute one further pass's worth
before the first check). -/
theorem claim_C1 (q : IndexQuery) (snap : Snapshot) (E : Nat)
    (result : List ID) (err : Option String)
    (hK : 1 ≤ q.maxDesired)
    (hm : ∀ mod ∈ q.mods, ∀ bucket,
      snap.getItemModIndexBucketRO q.rootType q.rootFlavor mod q.league =
        .ok bucket → ∀ e ∈ bucket, entryLen e ≤ E)
    (hrun : Run q snap = .returned result err) :
    (result.length : Int) ≤
      q.maxDesired - 1 + 2 * ((q.mods.length * E : Nat) : Int) := by
  obtain ⟨ctx0, ctxF, hic, hres, hcase⟩ := Run_returned_cases hrun
  have hB0 : ctxEntryBound E ctx0 := initContext_bound hic hm
  have hlen0 : ctx0.cursors.length = q.mods.length := initContext_len hic
  have hres0 : ctx0.result = [] := initContext_result hic
  obtain ⟨hpb, hpB⟩ := primeFrom_bound q E ctx0.cursors.length 0 ctx0 hB0
  rw [← primeCursors_def] at hpb hpB
  rcases hcase with ⟨e, hpc⟩ | ⟨ctx1, err2, hpc, hdl⟩
  · rw [hpc] at hpb
    have hP : ctxF.result.length ≤
        ctx0.result.length + ctx0.cursors.length * E := hpb
    rw [hres0, hlen0] at hP
    simp only [List.length_nil, Nat.zero_add] at hP
    rw [hres]
    omega
  · rw [hpc] at hpb hpB
    have hP : ctx1.result.length ≤
        ctx0.result.length + ctx0.cursors.length * E := hpb
    rw [hres0, hlen0] at hP
    simp only [List.length_nil, Nat.zero_add] at hP
    have hB1 : ctxEntryBound E ctx1 := hpB
    have hlen1 : ctx1.cursors.length = q.mods.length := by
      have hmain :=
        (primeFrom_main q ctx0.cursors.length 0 ctx0 (initContext_Inv hic)).2
      rw [← primeCursors_def, hpc] at hmain
      have hx : ctx1.cursors.length = ctx0.cursors.length := hmain
      rw [hx, hlen0]
    have hfirst := driverLoop_bound_first q E q.mods.length
      (ctxMeasure ctx1 + 1) ctx1 (ctxF, err2) hB1 hlen1 hdl
    have hfirst' : (ctxF.result.length : Int) ≤
        max ((ctx1.result.length : Int) +
          ((q.mods.length * E : Nat) : Int))
          (q.maxDesired - 1 + ((q.mods.length * E : Nat) : Int)) := hfirst
    rw [hres]
    rcases max_choice ((ctx1.result.length : Int) +
        ((q.mods.length * E : Nat) : Int))
        (q.maxDesired - 1 + ((q.mods.length * E : Nat) : Int)) with hmx | hmx
    · rw [hmx] at hfirst'
      omega
    · rw [hmx] at hfirst'
      omega

/-- Witness for the amended claim C1 at the concrete overshoot input:
with `maxDesired = 1`, one mod, and entries of at most two IDs, the
amended bound gives `len ≤ 1 - 1 + 2·(1·2) = 4`. -/
theorem claim_C1_witness :
    (([3, 4] : List ID).length : Int) ≤
      qC1cx.maxDesired - 1 + 2 * ((qC1cx.mods.length * 2 : Nat) : Int) :=
  claim_C1 qC1cx snapC1cx 2 [3, 4] none (by decide)
    (by
      intro mod hmod bucket hb
      have hbx : bucket = [.pair [0, 1] [3, 4]] := by
        cases hb
        rfl
      rw [hbx]
      decide)
    (by decide)

/-! ### Claim C2 (amended) -/

/-- Claim C2 (amended): the original claim fails when an ItemID reaches
the accumulator more than `len(mods)` times (see the counterexample), so
it is amended with the writer's guarantee the design relies on: if every
ItemID occurs at most once in each queried mod's bucket, every ID is
registered at most `len(mods)` times, can cross the threshold at most
once, and the result returned by `Run` contains no duplicates. -/
theorem claim_C2 (q : IndexQuery) (snap : Snapshot) (result : List ID)
    (err : Option String)
    (hm : ∀ mod ∈ q.mods, ∀ bucket,
      snap.getItemModIndexBucketRO q.rootType q.rootFlavor mod q.league =
        .ok bucket → ∀ id : ID, restCount id bucket ≤ 1)
    (hrun : Run q snap = .returned result err) : result.Nodup := by
  obtain ⟨ctx0, ctxF, hic, hres, hcase⟩ := Run_returned_cases hrun
  rcases Nat.eq_zero_or_pos q.mods.length with hn0 | hnpos
  · -- no mods: no cursor ever registers an ID and the result is empty
    obtain ⟨cs, ho, hctx0⟩ := initContext_ok hic
    have hlcs : cs.length = 0 := by
      rw [(openCursors_spec q snap q.mods cs ho).1, hn0]
    have hcs : cs = [] := List.length_eq_zero.mp hlcs
    subst hcs
    have hlen0 : ctx0.cursors.length = 0 := by rw [hctx0]; rfl
    rcases hcase with ⟨e, hpc⟩ | ⟨ctx1, err2, hpc, hdl⟩
    · rw [primeCursors_def, hlen0, primeFrom_zero] at hpc
      rw [Prod.mk.injEq] at hpc
      exact absurd hpc.2 (by simp)
    · rw [primeCursors_def, hlen0, primeFrom_zero] at hpc
      rw [Prod.mk.injEq] at hpc
      have hctx1 : ctx1 = ctx0 := hpc.1.symm
      subst hctx1
      have hm0 : ctxMeasure ctx1 = 0 := by rw [hctx0]; rfl
      rw [hm0] at hdl
      rw [driverLoop_succ] at hdl
      rw [if_neg (by rw [hctx0]; intro hc; exact absurd hc.2 (by norm_num))]
        at hdl
      rw [Option.some.injEq, Prod.mk.injEq] at hdl
      have hctxF : ctxF = ctx1 := hdl.1.symm
      subst hctxF
      rw [hres, hctx0]
      exact List.nodup_nil
  · -- at least one mod: the per-id potential bounds the result count
    have hphi0 : ∀ id : ID, phi q id ctx0 ≤ q.mods.length := fun id =>
      initContext_phi hic id
        (fun mod hmod bucket hob => hm mod hmod bucket hob id)
    have hphiF : ∀ id : ID, phi q id ctxF ≤ q.mods.length := by
      intro id
      rcases hcase with ⟨e, hpc⟩ | ⟨ctx1, err2, hpc, hdl⟩
      · have hp := primeFrom_phi q id ctx0.cursors.length 0 ctx0
        rw [← primeCursors_def, hpc] at hp
        exact le_trans hp (hphi0 id)
      · have hp := primeFrom_phi q id ctx0.cursors.length 0 ctx0
        rw [← primeCursors_def, hpc] at hp
        have hp' : phi q id ctx1 ≤ phi q id ctx0 := hp
        have hd := driverLoop_phi q id (ctxMeasure ctx1 + 1) 0 ctx1
          (ctxF, err2) hdl
        exact le_trans (le_trans hd hp') (hphi0 id)
    have hcount : ∀ id : ID, result.count id ≤ 1 := by
      intro id
      have hlow : q.mods.length * ctxF.result.count id ≤ phi q id ctxF := by
        simp only [phi, phiPart]
        omega
      have : q.mods.length * ctxF.result.count id ≤ q.mods.length * 1 := by
        rw [Nat.mul_one]
        exact le_trans hlow (hphiF id)
      rw [hres]
      exact Nat.le_of_mul_le_mul_left this hnpos
    exact List.nodup_iff_count_le_one.mpr fun id => hcount id

/-- Witness for the amended claim C2 at a concrete two-mod query whose
buckets carry each ID once. -/
theorem claim_C2_witness : ([7] : List ID).Nodup :=
  claim_C2 qC2w snapC2w [7] none
    (by
      intro mod hmod bucket hb id
      have hbx : bucket = [.pair [0, 1] [7]] := by
        cases hb
        rfl
      rw [hbx]
      have hrc : restCount id [BucketEntry.pair [0, 1] [7]] =
          List.count id [7] := by
        simp [restCount, entryCount]
      rw [hrc]
      exact le_trans (List.count_le_length ..) (by norm_num))
    (by decide)

/-! ### Claim C8: min-value scaling -/

theorem getD_map_lt {l : List Nat} {i : Nat} (f : Nat → Nat)
    (h : i < l.length) : (l.map f).getD i 0 = f (l.getD i 0) := by
  induction l generalizing i with
  | nil => simp at h
  | cons a t ih =>
    cases i with
    | zero => rfl
    | succ n => simpa using ih (Nat.lt_of_succ_lt_succ (by simpa using h))

/-- Claim C8: `NewIndexQuery` stores, for each position `i`, the minimum
multiplied by the system-wide scale factor as an unsigned 16-bit product,
and `checkPair` compares exactly these scaled values against the decoded
primary value: the entry's IDs are registered when the primary value
reaches the scaled minimum and the cursor is invalidated otherwise. -/
theorem claim_C8 (rt rf : StringHeapID) (mods : List StringHeapID)
    (minValues : List Nat) (lg : LeagueHeapID) (maxD : Int) (i : Nat)
    (hi : i < minValues.length) :
    ((NewIndexQuery rt rf mods minValues lg maxD).minModValues.getD i 0 =
      minValues.getD i 0 * ItemModAverageScaleFactor % 65536) ∧
    (∀ (ctx : indexQueryContext) (k : List Nat) (v : List ID)
        (values : List Nat),
      decodeModIndexKey k = .ok values → values ≠ [] →
      ((minValues.getD i 0 * ItemModAverageScaleFactor % 65536 ≤
          values.headD 0 →
        checkPair (NewIndexQuery rt rf mods minValues lg maxD) ctx k v i =
          .ok (0, v.foldl
            (registerID (NewIndexQuery rt rf mods minValues lg maxD))
            ctx)) ∧
       (values.headD 0 <
          minValues.getD i 0 * ItemModAverageScaleFactor % 65536 →
        checkPair (NewIndexQuery rt rf mods minValues lg maxD) ctx k v i =
          .ok (0, ctx.removeCursor i)))) := by
  have hmin : (NewIndexQuery rt rf mods minValues lg maxD).minModValues.getD
      i 0 = minValues.getD i 0 * ItemModAverageScaleFactor % 65536 :=
    getD_map_lt _ hi
  refine ⟨hmin, ?_⟩
  intro ctx k v values hdec hnz
  have hlz : ¬ values.length = 0 := by
    simpa [List.length_eq_zero] using hnz
  constructor
  · intro hge
    rw [checkPair_eq]
    simp only [hdec]
    rw [if_neg hlz, if_pos (by rw [hmin]; exact hge)]
  · intro hlt
    rw [checkPair_eq]
    simp only [hdec]
    rw [if_neg hlz, if_neg (by rw [hmin]; exact not_le.mpr hlt)]

/-- Witness for claim C8 with a minimum whose scaled product wraps in 16
bits: `7000 · 10 mod 2^16 = 4464`. -/
theorem claim_C8_witness :
    (NewIndexQuery 0 0 [1] [7000] 0 5).minModValues.getD 0 0 =
      ([7000] : List Nat).getD 0 0 * ItemModAverageScaleFactor % 65536 :=
  (claim_C8 0 0 [1] [7000] 0 5 0 (by decide)).1

/-! ### Claim C6: cursor invalidation below the scaled minimum -/

/-- Claim C6: when a pair's decoded primary value is below the scaled
minimum for its mod, `checkPair` invalidates the slot and registers
nothing (the accumulator map and result are untouched), and an
invalidated slot is never restored: every later stride pass and the whole
driver loop keep it `none`. -/
theorem claim_C6 (q : IndexQuery) (ctx : indexQueryContext) (k : List Nat)
    (v : List ID) (i : Nat) (values : List Nat)
    (hi : i < ctx.cursors.length)
    (hdec : decodeModIndexKey k = .ok values) (hnz : values ≠ [])
    (hlt : values.headD 0 < q.minModValues.getD i 0) :
    (checkPair q ctx k v i = .ok (0, ctx.removeCursor i) ∧
      (ctx.removeCursor i).result = ctx.result ∧
      (ctx.removeCursor i).set = ctx.set ∧
      (ctx.removeCursor i).cursors.getD i none = none) ∧
    (∀ ctx2 : indexQueryContext, ctx2.cursors.getD i none = none →
      (stride q ctx2).1.cursors.getD i none = none) ∧
    (∀ (fuel : Nat) (f : Int) (ctx2 : indexQueryContext)
        (out : indexQueryContext × Option String),
      ctx2.cursors.getD i none = none →
      driverLoop q fuel f ctx2 = some out →
      out.1.cursors.getD i none = none) := by
  have hlz : ¬ values.length = 0 := by
    simpa [List.length_eq_zero] using hnz
  refine ⟨⟨?_, rfl, rfl, getD_set_self hi⟩, ?_, ?_⟩
  · rw [checkPair_eq]
    simp only [hdec]
    rw [if_neg hlz, if_neg (not_le.mpr hlt)]
  · intro ctx2 h2
    rw [stride_def]
    exact strideFrom_none_pres q ctx2.cursors.length 0 ctx2 i h2
  · intro fuel f ctx2 out h2 hdl
    exact driverLoop_none_pres q fuel f ctx2 out i h2 hdl

/-- Witness for claim C6: a pair decoding to primary value 7 against
scaled minimum 50 removes cursor slot 0. -/
theorem claim_C6_witness :
    checkPair qC6w ctxC6w [0, 7] [9] 0 = .ok (0, ctxC6w.removeCursor 0) :=
  (claim_C6 qC6w ctxC6w [0, 7] [9] 0 [7] (by decide) rfl
    (by decide) (by decide)).1.1

/-! ### Claim C5: missing buckets are not errors -/

theorem getD_mem_of_lt {α : Type} {l : List α} {j : Nat} {d : α}
    (h : j < l.length) : l.getD j d ∈ l := by
  induction l generalizing j with
  | nil => simp at h
  | cons a t ih =>
    cases j with
    | zero => exact List.mem_cons_self ..
    | succ n =>
      rw [List.getD_cons_succ]
      exact List.mem_cons_of_mem _ (ih (Nat.lt_of_succ_lt_succ (by simpa using h)))

theorem wsum_zero_of_all_none {f : Cursor → Nat} {l : List (Option Cursor)}
    (h : ∀ j < l.length, l.getD j none = none) : wsum f l = 0 := by
  induction l with
  | nil => rfl
  | cons a t ih =>
    have h0 : a = none := h 0 (by simp)
    rw [wsum_cons, h0]
    simp only [cursorWeight, Nat.zero_add]
    exact ih fun j hj => h (j + 1) (by simpa using hj)

theorem primeFrom_empties (q : IndexQuery) (rem : Nat) :
    ∀ (i : Nat) (ctx : indexQueryContext),
      (∀ j, ctx.cursors.getD j none = none ∨
        ctx.cursors.getD j none = some ⟨[]⟩) →
      primeFrom q rem i ctx = (ctx, none) := by
  induction rem with
  | zero => intro i ctx _; rfl
  | succ rem ih =>
    intro i ctx hcl
    rcases hcl i with hn | hs
    · rw [primeFrom_succ_none q rem i ctx hn]
      exact ih (i + 1) ctx hcl
    · rw [primeFrom_succ_nil q rem i ctx ⟨[]⟩ hs rfl]
      exact ih (i + 1) ctx hcl

theorem strideFrom_empties (q : IndexQuery) (rem : Nat) :
    ∀ (i : Nat) (ctx : indexQueryContext),
      (∀ j, ctx.cursors.getD j none = none ∨
        ctx.cursors.getD j none = some ⟨[]⟩) →
      ∃ ctx2, strideFrom q rem i ctx = (ctx2, none) ∧
        ctx2.result = ctx.result ∧
        (∀ j, i ≤ j → j < i + rem → ctx2.cursors.getD j none = none) ∧
        (∀ j, (j < i ∨ i + rem ≤ j) →
          ctx2.cursors.getD j none = ctx.cursors.getD j none) := by
  induction rem with
  | zero =>
    intro i ctx _
    exact ⟨ctx, rfl, rfl, fun j h1 h2 => by omega, fun j _ => rfl⟩
  | succ rem ih =>
    intro i ctx hcl
    rcases hcl i with hn | hs
    · rw [strideFrom_succ_none q rem i ctx hn]
      obtain ⟨ctx2, he, hr, hin, hout⟩ := ih (i + 1) ctx hcl
      refine ⟨ctx2, he, hr, ?_, ?_⟩
      · intro j h1 h2
        by_cases hji : j = i
        · rw [hji]
          exact (hout i (Or.inl (by omega))).trans hn
        · exact hin j (by omega) (by omega)
      · intro j hj
        refine hout j ?_
        rcases hj with h | h
        · exact Or.inl (by omega)
        · exact Or.inr (by omega)
    · have heq := strideFrom_succ_some q rem i ctx ⟨[]⟩ hs
      have hsc : strideCursor q i ctx 0 (⟨[]⟩ : Cursor).rest =
          (ctx.removeCursor i, none) :=
        strideCursor_nil q i ctx 0 (by decide)
      rw [hsc] at heq
      have heq2 : strideFrom q (rem + 1) i ctx =
          strideFrom q rem (i + 1) (ctx.removeCursor i) := heq
      rw [heq2]
      have hilt : i < ctx.cursors.length := getD_some_lt hs
      have hcl' : ∀ j, (ctx.removeCursor i).cursors.getD j none = none ∨
          (ctx.removeCursor i).cursors.getD j none = some ⟨[]⟩ := by
        intro j
        by_cases hji : j = i
        · subst hji
          exact Or.inl (getD_set_self hilt)
        · have hx : (ctx.removeCursor i).cursors.getD j none =
              ctx.cursors.getD j none := getD_set_ne hji
          rw [hx]
          exact hcl j
      obtain ⟨ctx2, he, hr, hin, hout⟩ := ih (i + 1) (ctx.removeCursor i) hcl'
      have hr' : ctx2.result = ctx.result := hr
      refine ⟨ctx2, he, hr', ?_, ?_⟩
      · intro j h1 h2
        by_cases hji : j = i
        · rw [hji]
          exact (hout i (Or.inl (by omega))).trans (getD_set_self hilt)
        · exact hin j (by omega) (by omega)
      · intro j hj
        have hji : j ≠ i := by omega
        have h1 := hout j (by rcases hj with h | h
                              · exact Or.inl (by omega)
                              · exact Or.inr (by omega))
        have h2 : (ctx.removeCursor i).cursors.getD j none =
            ctx.cursors.getD j none := getD_set_ne hji
        exact h1.trans h2

theorem openCursors_getD (q : IndexQuery) (snap : Snapshot) :
    ∀ (mods : List StringHeapID) (cs : List (Option Cursor)),
      openCursors q snap mods = .ok cs →
      ∀ i, (hi : i < mods.length) → ∀ bucket,
        snap.getItemModIndexBucketRO q.rootType q.rootFlavor
          (mods.get ⟨i, hi⟩) q.league = .ok bucket →
        cs.getD i none = some ⟨bucket.reverse⟩ := by
  intro mods
  induction mods with
  | nil =>
    intro cs h i hi
    exact absurd hi (by simp)
  | cons mod rest ih =>
    intro cs h i hi bucket hb
    simp only [openCursors] at h
    cases hob : snap.getItemModIndexBucketRO q.rootType q.rootFlavor mod
        q.league with
    | error e =>
      rw [hob] at h
      exact absurd h (by simp)
    | ok b0 =>
      rw [hob] at h
      cases ho : openCursors q snap rest with
      | error e =>
        rw [ho] at h
        exact absurd h (by simp)
      | ok cs2 =>
        rw [ho] at h
        simp only at h
        cases h
        cases i with
        | zero =>
          have hb0 : snap.getItemModIndexBucketRO q.rootType q.rootFlavor
              mod q.league = Except.ok bucket := hb
          rw [hob] at hb0
          injection hb0 with hbb
          rw [List.getD_cons_zero, hbb]
        | succ n =>
          rw [List.getD_cons_succ]
          exact ih cs2 ho n (Nat.lt_of_succ_lt_succ (by simpa using hi))
            bucket hb

theorem primeFrom_slot_nil (q : IndexQuery) (rem : Nat) :
    ∀ (i : Nat) (ctx : indexQueryContext) (j : Nat),
      ctx.cursors.getD j none = some ⟨[]⟩ →
      (primeFrom q rem i ctx).1.cursors.getD j none = some ⟨[]⟩ := by
  induction rem with
  | zero => intro i ctx j hj; exact hj
  | succ rem ih =>
    intro i ctx j hj
    cases hx : ctx.cursors.getD i none with
    | none =>
      rw [primeFrom_succ_none q rem i ctx hx]
      exact ih (i + 1) ctx j hj
    | some c =>
      cases hr : c.rest with
      | nil =>
        rw [primeFrom_succ_nil q rem i ctx c hx hr]
        exact ih (i + 1) ctx j hj
      | cons e t =>
        have hji : j ≠ i := by
          intro hh
          rw [hh, hx] at hj
          injection hj with hc
          rw [hc] at hr
          have hr2 : ([] : List BucketEntry) = e :: t := hr
          exact List.noConfusion hr2
        have hset : (ctx.setCursor i ⟨t⟩).cursors.getD j none =
            ctx.cursors.getD j none := getD_set_ne hji
        cases e with
        | nested =>
          rw [primeFrom_succ_nested q rem i ctx c t hx hr]
          refine ih (i + 1) (ctx.setCursor i ⟨t⟩) j ?_
          rw [hset]
          exact hj
        | pair k v =>
          rw [primeFrom_succ_pair q rem i ctx c k v t hx hr]
          cases hcp : checkPair q (ctx.setCursor i ⟨t⟩) k v i with
          | error err =>
            simp only [hcp]
            show (ctx.setCursor i ⟨t⟩).cursors.getD j none = some ⟨[]⟩
            rw [hset]
            exact hj
          | ok out =>
            simp only [hcp]
            obtain ⟨-, hor⟩ := checkPair_ok hcp
            refine ih (i + 1) out.2 j ?_
            cases hor with
            | inl hfold =>
              rw [hfold, foldl_registerID_cursors, hset]
              exact hj
            | inr hrem =>
              rw [hrem]
              show ((ctx.cursors.set i (some ⟨t⟩)).set i none).getD j none =
                some ⟨[]⟩
              rw [getD_set_ne hji, getD_set_ne hji]
              exact hj

theorem strideFrom_kills_nil (q : IndexQuery) (rem : Nat) :
    ∀ (i : Nat) (ctx ctx2 : indexQueryContext) (j : Nat),
      i ≤ j → j < i + rem →
      ctx.cursors.getD j none = some ⟨[]⟩ →
      strideFrom q rem i ctx = (ctx2, none) →
      ctx2.cursors.getD j none = none := by
  induction rem with
  | zero =>
    intro i ctx ctx2 j h1 h2 _ _
    omega
  | succ rem ih =>
    intro i ctx ctx2 j h1 h2 hj hsf
    by_cases hji : j = i
    · subst hji
      rw [strideFrom_succ_some q rem j ctx ⟨[]⟩ hj] at hsf
      have hscn : strideCursor q j ctx 0 (⟨[]⟩ : Cursor).rest =
          (ctx.removeCursor j, none) :=
        strideCursor_nil q j ctx 0 (by decide)
      rw [hscn] at hsf
      have hsf2 : strideFrom q rem (j + 1) (ctx.removeCursor j) =
          (ctx2, none) := hsf
      have hnone : (ctx.removeCursor j).cursors.getD j none = none :=
        getD_set_self (getD_some_lt hj)
      have hp := strideFrom_none_pres q rem (j + 1) (ctx.removeCursor j)
        j hnone
      rw [hsf2] at hp
      exact hp
    · cases hx : ctx.cursors.getD i none with
      | none =>
        rw [strideFrom_succ_none q rem i ctx hx] at hsf
        exact ih (i + 1) ctx ctx2 j (by omega) (by omega) hj hsf
      | some c =>
        rw [strideFrom_succ_some q rem i ctx c hx] at hsf
        have hother := strideCursor_other q i c.rest ctx 0 j hji
        cases hsc : strideCursor q i ctx 0 c.rest with
        | mk ctx1 errc =>
          rw [hsc] at hsf hother
          have hother2 : ctx1.cursors.getD j none =
              ctx.cursors.getD j none := hother
          cases errc with
          | some e =>
            have hsf2 : ((ctx1, some e) :
                indexQueryContext × Option String) = (ctx2, none) := hsf
            rw [Prod.mk.injEq] at hsf2
            exact absurd hsf2.2 (by simp)
          | none =>
            have hsf2 : strideFrom q rem (i + 1) ctx1 = (ctx2, none) := hsf
            exact ih (i + 1) ctx1 ctx2 j (by omega) (by omega)
              (by rw [hother2]; exact hj) hsf2

/-- Claim C5: missing index buckets are not errors.  Provided every
bucket lookup itself succeeds (a missing bucket opens as an empty one,
never an error) and `maxDesired` is non-negative (Go's
`make([]ID, 0, maxDesired)` panics otherwise), `initContext` succeeds
even when only some queried mods lack buckets: each bucketless mod gets
an already-exhausted cursor, the priming pass leaves that cursor in
place, and the first stride pass that completes without error
invalidates its slot.  When every queried mod lacks a bucket, `Run`
returns the empty result and no error. -/
theorem claim_C5 (q : IndexQuery) (snap : Snapshot)
    (hK : 0 ≤ q.maxDesired)
    (hopen : ∀ mod ∈ q.mods, ∃ bucket,
      snap.getItemModIndexBucketRO q.rootType q.rootFlavor mod q.league =
        Except.ok bucket) :
    (∃ ctx0, initContext q snap = .ok ctx0 ∧
      ∀ i, (hi : i < q.mods.length) →
        snap.getItemModIndexBucketRO q.rootType q.rootFlavor
          (q.mods.get ⟨i, hi⟩) q.league = .ok [] →
        ctx0.cursors.getD i none = some ⟨[]⟩ ∧
        (primeCursors q ctx0).1.cursors.getD i none = some ⟨[]⟩ ∧
        (∀ ctx2, stride q (primeCursors q ctx0).1 = (ctx2, none) →
          ctx2.cursors.getD i none = none)) ∧
    ((∀ mod ∈ q.mods,
        snap.getItemModIndexBucketRO q.rootType q.rootFlavor mod q.league =
          Except.ok []) →
      Run q snap = .returned [] none) := by
  obtain ⟨cs, ho⟩ := openCursors_total q snap q.mods hopen
  obtain ⟨hlen, hnn, hslots⟩ := openCursors_spec q snap q.mods cs ho
  have hic : initContext q snap =
      .ok ⟨(cs.length : Int), cs, fun _ => 0, []⟩ := by
    unfold initContext
    rw [ho]
    show (if q.maxDesired < 0 then InitResult.panicked
          else InitResult.ok ⟨(cs.length : Int), cs, fun _ => 0, []⟩) =
        InitResult.ok ⟨(cs.length : Int), cs, fun _ => 0, []⟩
    rw [if_neg (by omega)]
  set ctx0 : indexQueryContext := ⟨(cs.length : Int), cs, fun _ => 0, []⟩
    with hctx0
  have hcs0 : ctx0.cursors = cs := rfl
  have hInv0 : Inv ctx0 := initContext_Inv hic
  constructor
  · refine ⟨ctx0, hic, ?_⟩
    intro i hi hmi
    have hslot0 : ctx0.cursors.getD i none = some ⟨[]⟩ := by
      rw [hcs0]
      exact openCursors_getD q snap q.mods cs ho i hi [] hmi
    have hslot1 : (primeCursors q ctx0).1.cursors.getD i none =
        some ⟨[]⟩ := by
      rw [primeCursors_def]
      exact primeFrom_slot_nil q ctx0.cursors.length 0 ctx0 i hslot0
    refine ⟨hslot0, hslot1, ?_⟩
    intro ctx2 hst
    rw [stride_def] at hst
    have hplen : (primeCursors q ctx0).1.cursors.length = cs.length := by
      have hx := (primeFrom_main q ctx0.cursors.length 0 ctx0 hInv0).2
      rw [← primeCursors_def] at hx
      rw [hx, hcs0]
    have hil : i < cs.length := by
      rw [hlen]
      exact hi
    exact strideFrom_kills_nil q (primeCursors q ctx0).1.cursors.length 0
      (primeCursors q ctx0).1 ctx2 i (Nat.zero_le i) (by omega) hslot1 hst
  · intro hall
    have hallE : ∀ c : Cursor, some c ∈ cs → c = ⟨[]⟩ := by
      intro c hc
      obtain ⟨mod, hmod, bucket, hob, hcr⟩ := hslots c hc
      rw [hall mod hmod] at hob
      have hb : bucket = [] := by
        injection hob with hb'
        exact hb'.symm
      cases c with
      | mk rest =>
        simp only at hcr
        rw [hb] at hcr
        simp only [List.reverse_nil] at hcr
        rw [hcr]
    have hslotj : ∀ j, cs.getD j none = none ∨
        cs.getD j none = some ⟨[]⟩ := by
      intro j
      by_cases hj : j < cs.length
      · right
        have hmem : cs.getD j none ∈ cs := getD_mem_of_lt hj
        cases hx : cs.getD j none with
        | none =>
          rw [hx] at hmem
          exact absurd rfl (hnn none hmem)
        | some c =>
          rw [hx] at hmem
          rw [hallE c hmem]
      · exact Or.inl (List.getD_eq_default _ _ (Nat.le_of_not_lt hj))
    rw [Run_eq_ok hic]
    have hprime : primeCursors q ctx0 = (ctx0, none) := by
      rw [primeCursors_def]
      exact primeFrom_empties q ctx0.cursors.length 0 ctx0 hslotj
    rw [hprime]
    show (match driverLoop q (ctxMeasure ctx0 + 1) 0 ctx0 with
          | none => RunOutcome.diverged
          | some (ctx2, none) => RunOutcome.returned ctx2.result none
          | some (ctx2, some e) =>
            RunOutcome.returned ctx2.result (some e)) =
        RunOutcome.returned [] none
    by_cases hKvc : (0 : Int) < q.maxDesired ∧ 0 < ctx0.validCursors
    · obtain ⟨ctx2, hsf, hres2, hin, hout⟩ :=
        strideFrom_empties q cs.length 0 ctx0 hslotj
      have hstride : stride q ctx0 = (ctx2, none) := by
        rw [stride_def]
        exact hsf
      have hInv2 : Inv ctx2 := by
        have hmain := (strideFrom_main q cs.length 0 ctx0 hInv0).1
        rw [hsf] at hmain
        exact hmain
      have hlen2 : ctx2.cursors.length = cs.length := by
        have hx := strideFrom_len q cs.length 0 ctx0
        rw [hsf] at hx
        exact hx
      have hall2 : ∀ j < ctx2.cursors.length,
          ctx2.cursors.getD j none = none := by
        intro j hj
        rw [hlen2] at hj
        exact hin j (Nat.zero_le _) (by omega)
      have hw0 : wsum (fun _ => 1) ctx2.cursors = 0 :=
        wsum_zero_of_all_none hall2
      have hvc2 : ctx2.validCursors = 0 := by
        simp only [Inv] at hInv2
        rw [hInv2, hw0]
        rfl
      have hm1 : 1 ≤ ctxMeasure ctx0 := by
        show 1 ≤ ((cs.length : Int)).toNat +
          wsum (fun c => c.rest.length) cs
        have hvc0 : (0 : Int) < ((cs.length : Int)) := hKvc.2
        omega
      obtain ⟨m, hm⟩ : ∃ m, ctxMeasure ctx0 = m + 1 :=
        ⟨ctxMeasure ctx0 - 1, by omega⟩
      rw [hm]
      rw [driverLoop_succ, if_pos hKvc, hstride]
      show (match driverLoop q (m + 1) ((ctx2.result.length : Int)) ctx2 with
            | none => RunOutcome.diverged
            | some (ctx3, none) => RunOutcome.returned ctx3.result none
            | some (ctx3, some e) =>
              RunOutcome.returned ctx3.result (some e)) =
          RunOutcome.returned [] none
      have hstep : driverLoop q (m + 1) ((ctx2.result.length : Int)) ctx2 =
          some (ctx2, none) := by
        rw [driverLoop_succ, if_neg ?_]
        intro hc
        rw [hvc2] at hc
        exact absurd hc.2 (by norm_num)
      rw [hstep]
      show RunOutcome.returned ctx2.result none = RunOutcome.returned [] none
      rw [hres2]
    · rw [driverLoop_succ, if_neg hKvc]

/-- Witness for claim C5 at the mixed query `qC5m` (mod 1 has a bucket,
mod 2 has none, `maxDesired = 4`), and at the all-missing query `qC5w`,
where `Run` returns the empty result with no error. -/
theorem claim_C5_witness :
    ((∃ ctx0, initContext qC5m snapC5m = .ok ctx0 ∧
      ∀ i, (hi : i < qC5m.mods.length) →
        snapC5m.getItemModIndexBucketRO qC5m.rootType qC5m.rootFlavor
          (qC5m.mods.get ⟨i, hi⟩) qC5m.league = .ok [] →
        ctx0.cursors.getD i none = some ⟨[]⟩ ∧
        (primeCursors qC5m ctx0).1.cursors.getD i none = some ⟨[]⟩ ∧
        (∀ ctx2, stride qC5m (primeCursors qC5m ctx0).1 = (ctx2, none) →
          ctx2.cursors.getD i none = none)) ∧
      ((∀ mod ∈ qC5m.mods,
          snapC5m.getItemModIndexBucketRO qC5m.rootType qC5m.rootFlavor mod
            qC5m.league = .ok []) →
        Run qC5m snapC5m = .returned [] none)) ∧
    Run qC5w snapC5w = .returned [] none := by
  constructor
  · exact claim_C5 qC5m snapC5m (by decide)
      (by
        intro mod hm
        have hm2 : mod = 1 ∨ mod = 2 := by
          simpa [qC5m, NewIndexQuery] using hm
        rcases hm2 with rfl | rfl
        · exact ⟨[.pair [0, 9] [6]], rfl⟩
        · exact ⟨[], rfl⟩)
  · exact (claim_C5 qC5w snapC5w (by decide)
      (fun mod _ => ⟨[], rfl⟩)).2 (fun mod _ => rfl)

/-! ### Claim C7: termination of Run -/

/-- Claim C7: for every query and snapshot the driver loop halts: each
stride pass with a live cursor either advances a cursor toward the start
of its bucket or invalidates one, so the measure `ctxMeasure` (valid
cursors plus entries remaining on live cursors) strictly decreases, and
`Run` never diverges. -/
theorem claim_C7 (q : IndexQuery) (snap : Snapshot) :
    Run q snap ≠ .diverged := by
  cases hic : initContext q snap with
  | error e =>
    rw [Run_eq_panicked hic]
    simp
  | panicked =>
    rw [Run_initPanicked hic]
    simp
  | ok ctx0 =>
    rw [Run_eq_ok hic]
    have hInv0 : Inv ctx0 := initContext_Inv hic
    cases hpc : primeCursors q ctx0 with
    | mk ctx1 err =>
      have hInv1 : Inv ctx1 := by
        have hmain := (primeFrom_main q ctx0.cursors.length 0 ctx0 hInv0).1
        rw [← primeCursors_def, hpc] at hmain
        exact hmain
      cases err with
      | some e =>
        show RunOutcome.returned ctx1.result (some e) ≠ RunOutcome.diverged
        simp
      | none =>
        show (match driverLoop q (ctxMeasure ctx1 + 1) 0 ctx1 with
              | none => RunOutcome.diverged
              | some (ctx2, none) => RunOutcome.returned ctx2.result none
              | some (ctx2, some e) =>
                RunOutcome.returned ctx2.result (some e)) ≠
            RunOutcome.diverged
        have hterm :=
          driverLoop_terminates q (ctxMeasure ctx1 + 1) 0 ctx1 hInv1
            (by omega)
        cases hdl : driverLoop q (ctxMeasure ctx1 + 1) 0 ctx1 with
        | none => exact absurd hdl hterm
        | some out =>
          cases out with
          | mk ctx2 err2 =>
            cases err2 with
            | none =>
              show RunOutcome.returned ctx2.result none ≠ RunOutcome.diverged
              simp
            | some e2 =>
              show RunOutcome.returned ctx2.result (some e2) ≠
                RunOutcome.diverged
              simp

/-- Witness for claim C10 at a concrete one-mod search. -/
theorem claim_C10_witness : searchC10w.Satisfies [] = some true :=
  claim_C10 searchC10w rfl

end PoE
